import Mathlib

/-!
Verification of the incremental RAG indexing pipeline
(`src/chunker.py`, `src/indexer.py`, `src/embedder.py`,
`src/incremental_indexer.py`) via a shallow embedding.

Conventions of the embedding:
* Python `int` is `Int` (or `Nat` where the source only ever holds
  non-negative counts); Python lists are `List`; Python sets are `Finset`.
* Floating point arithmetic is idealised: vector components are exact
  rationals, and the similarity score that faiss computes (inner product
  of L2-normalised vectors, i.e. cosine similarity) is modelled as an
  exact real number.
* External collaborators (the tiktoken tokenizer, the md5 hash, the
  remote embedding service) are parameters of the model: the tokenizer
  is `String → Option (List Nat)` (`none` models the `encode` call
  raising), decoding is `List Nat → String`, the per-text embedding call
  is `String → Except Unit Vec` (`.error` models the remote call raising
  after retries are exhausted).
* `faiss` itself is external: `IndexFlatIP.search` is modelled per its
  documented contract — the `k` results are the stored vectors sorted by
  descending inner product with the (normalised) query, padded with
  label `-1` when fewer than `k` vectors are stored.  Since every stored
  vector is L2-normalised by `FaissIndexer.add` and the probe is
  normalised by `query`, sorting by inner product is sorting by cosine
  similarity of the raw vectors; the model keeps the raw rationals and
  sorts with a decidable comparator `cosGe` proved below to agree with
  the real-valued cosine ordering.
* `pickle.dump`/`pickle.load` and `faiss.write_index`/`read_index` are
  modelled as faithful persistence of the serialised values.
-/

instance {ε α : Type _} [DecidableEq ε] [DecidableEq α] :
    DecidableEq (Except ε α)
  | .ok a, .ok b =>
    if h : a = b then .isTrue (by rw [h])
    else .isFalse (by intro hh; cases hh; exact h rfl)
  | .ok _, .error _ => .isFalse (by intro h; cases h)
  | .error _, .ok _ => .isFalse (by intro h; cases h)
  | .error e, .error f =>
    if h : e = f then .isTrue (by rw [h])
    else .isFalse (by intro hh; cases hh; exact h rfl)

/-! ### Python list semantics -/

/-- Python `l[i]` for an integer index: non-negative indices count from
the front, negative indices count from the back (`l[-1]` is the last
element); anything out of range raises (`none`). -/
def pyGet {α : Type _} (l : List α) (i : Int) : Option α :=
  if 0 ≤ i then l.get? i.toNat
  else if -(l.length : Int) ≤ i then l.get? (l.length - (-i).toNat)
  else none

/-- Normalisation of one bound of a Python slice `l[i:j]` to a clamped
non-negative position. -/
def pySliceNorm (n : Nat) (i : Int) : Nat :=
  if i < 0 then ((n : Int) + i).toNat.min n else i.toNat.min n

/-- Python slice `l[i:j]` with full negative-index and clamping
semantics. -/
def pySlice {α : Type _} (l : List α) (i j : Int) : List α :=
  (l.take (pySliceNorm l.length j)).drop (pySliceNorm l.length i)

/-- Python truthiness of `not text or not text.strip()`: the string is
empty or consists solely of whitespace. -/
def pyBlank (s : String) : Bool :=
  s.toList.all fun c =>
    c = ' ' ∨ c = '\t' ∨ c = '\n' ∨ c = '\r' ∨ c = '\x0b' ∨ c = '\x0c'

/-! ### Chunker (`src/chunker.py`, `chunk_text`) -/

/-- One chunk record produced by `chunk_text`:
`{'id': f'chunk_{idx}', 'text': ..., 'start_token': start,
'end_token': end}`. -/
structure Chunk where
  id : String
  text : String
  start_token : Int
  end_token : Int
deriving DecidableEq, Repr

/-- The `chunk_text` while-loop.  The source bounds the loop by
`idx < max_chunks` with `max_chunks = 1000`; `fuel` is the structural
counter for the remaining iterations (`fuel = 1000 - idx` at every
call), so the guard `start < len(tokens) and idx < max_chunks` is
faithfully represented.  `decode` is total here: `ENCODER.decode` on a
slice of a previously encoded token list does not raise, so the
`except`/`continue` arm of the source is never taken. -/
def chunkLoop (decode : List Nat → String) (tokens : List Nat)
    (max_tokens overlap : Nat) : Int → Nat → Nat → List Chunk
  | _, _, 0 => []
  | start, idx, fuel + 1 =>
    if start < (tokens.length : Int) ∧ idx < 1000 then
      let e : Int := min (start + (max_tokens : Int)) (tokens.length : Int)
      { id := "chunk_" ++ toString idx,
        text := decode (pySlice tokens start e),
        start_token := start,
        end_token := e } ::
        chunkLoop decode tokens max_tokens overlap (e - (overlap : Int))
          (idx + 1) fuel
    else []

/-- `chunk_text(text, max_tokens, overlap)`: blank text yields `[]`;
a raising tokenizer (`tokenize text = none`) yields `[]`; an empty
token list yields `[]`; otherwise the windowing loop runs from
`start = 0`, `idx = 0` with the 1000-chunk cap. -/
def chunk_text (tokenize : String → Option (List Nat))
    (decode : List Nat → String) (text : String)
    (max_tokens overlap : Nat) : List Chunk :=
  if pyBlank text then []
  else
    match tokenize text with
    | none => []
    | some tokens =>
      if tokens.length = 0 then []
      else chunkLoop decode tokens max_tokens overlap 0 0 1000

/-! ### Vector index (`src/indexer.py`, `FaissIndexer`) -/

/-- A vector, with exact rational components in place of floats. -/
abbrev Vec := List ℚ

/-- Inner product (`faiss` inner-product metric); zips truncate, matching
faiss which only ever compares vectors of the index dimension. -/
def dot (x y : Vec) : ℚ := (List.zipWith (· * ·) x y).sum

/-- Squared L2 norm. -/
def normSq (x : Vec) : ℚ := dot x x

/-- Decidable comparison `a / sqrt A ≥ b / sqrt B` for `A B ≥ 0`,
written without square roots.  `divGeReal` below proves it agrees with
the real-valued inequality (with Lean's `x / 0 = 0` convention matching
`faiss.normalize_L2` leaving the zero vector unchanged). -/
def divGe (a A b B : ℚ) : Bool :=
  if A = 0 then (if B = 0 then true else b ≤ 0)
  else if B = 0 then 0 ≤ a
  else if 0 ≤ a then (b < 0 ∨ b ^ 2 * A ≤ a ^ 2 * B)
  else (b < 0 ∧ a ^ 2 * B ≤ b ^ 2 * A)

/-- `cosGe v x y`: the score faiss stores for `x` (inner product of the
L2-normalised `x` with the normalised probe `v`) is at least the score
it stores for `y`.  The common positive factor `1 / sqrt (normSq v)`
cancels, so the probe's norm does not appear. -/
def cosGe (v x y : Vec) : Bool :=
  divGe (dot x v) (normSq x) (dot y v) (normSq y)

/-- State of a `FaissIndexer`: the construction dimension, the stored
vectors (the model keeps the raw rationals; `add` L2-normalises before
storage, which rescales each vector by a positive factor and therefore
does not change the cosine ordering `cosGe` that `search` sorts by), and
the parallel `metadatas` list.  `M` is the metadata record type. -/
structure FaissState (M : Type) where
  dim : Nat
  vecs : List Vec
  metadatas : List M
deriving DecidableEq

/-- `FaissIndexer(dim)`. -/
def FaissIndexer (M : Type) (dim : Nat) : FaissState M :=
  { dim := dim, vecs := [], metadatas := [] }

namespace FaissState

/-- `add(vectors, metadatas)`: appends the (normalised) vectors to the
faiss index and extends the metadata list. -/
def add {M : Type} (st : FaissState M) (vectors : List Vec)
    (metadatas : List M) : FaissState M :=
  { st with vecs := st.vecs ++ vectors,
            metadatas := st.metadatas ++ metadatas }

/-- The stored vectors with their faiss ids, sorted by descending score
against the probe `v` (what `IndexFlatIP.search` ranks by). -/
def sortedHits {M : Type} (st : FaissState M) (v : Vec) : List (Nat × Vec) :=
  st.vecs.enum.insertionSort fun p q => cosGe v p.2 q.2

/-- `self.index.search(v, k)` label array: the ids of the top `k` stored
vectors by descending score, padded with `-1` up to length `k` when
fewer than `k` vectors are stored. -/
def search {M : Type} (st : FaissState M) (v : Vec) (k : Nat) : List Int :=
  ((st.sortedHits v).take k).map (fun p => (p.1 : Int)) ++
    List.replicate (k - st.vecs.length) (-1)

/-- `query(vector, k)`: for each returned label, the source keeps the
result when `idx < len(self.metadatas)` — the faithful guard, which the
`-1` padding labels also pass whenever the metadata list is non-empty —
and then reads `self.metadatas[idx]` with Python indexing, so `-1` reads
the *last* metadata record.  A result `{'score': s, 'metadata': m}` is
modelled as the pair (label, metadata); the float score of a result is
determined by its label (see `scoreAt`). -/
def query {M : Type} (st : FaissState M) (v : Vec) (k : Nat) :
    List (Int × M) :=
  (st.search v k).filterMap fun idx =>
    if idx < (st.metadatas.length : Int) then
      (pyGet st.metadatas idx).map fun m => (idx, m)
    else none

end FaissState

/-- The two persisted artifacts (`faiss.index` written by
`faiss.write_index`, `faiss_meta.pkl` written by `pickle.dump`),
modelled as faithful storage of the serialised values. -/
structure FaissDisk (M : Type) where
  index_file : Option (Nat × List Vec)
  meta_file : Option (List M)
deriving DecidableEq

namespace FaissState

/-- `save()`: writes both artifacts. -/
def save {M : Type} (st : FaissState M) (_d : FaissDisk M) : FaissDisk M :=
  { index_file := some (st.dim, st.vecs), meta_file := some st.metadatas }

/-- `load()`: when both artifacts exist, replaces `self.index` and
`self.metadatas` (the `self.dim` attribute is not touched by the
source) and returns `True`; otherwise leaves the state alone and
returns `False`. -/
def load {M : Type} (st : FaissState M) (d : FaissDisk M) :
    FaissState M × Bool :=
  match d.index_file, d.meta_file with
  | some ix, some ms =>
    ({ st with vecs := ix.2, metadatas := ms }, true)
  | _, _ => (st, false)

end FaissState

/-- The idealised similarity score of stored vector `x` against probe
`q`: the inner product of the L2-normalised vectors, i.e. the cosine
similarity of the raw vectors (`0` when either vector is zero, matching
`faiss.normalize_L2` fixing the zero vector). -/
noncomputable def realScore (x q : Vec) : ℝ :=
  ((dot x q : ℚ) : ℝ) /
    (Real.sqrt ((normSq x : ℚ) : ℝ) * Real.sqrt ((normSq q : ℚ) : ℝ))

/-- The score attached to the query result with label `i`. -/
noncomputable def scoreAt {M : Type} (st : FaissState M) (q : Vec)
    (i : Int) : ℝ :=
  match st.vecs.get? i.toNat with
  | some x => realScore x q
  | none => 0

/-! ### Embedding client (`src/embedder.py`, `embed_texts`) -/

/-- `embed_texts(texts)`: the remote service is called once per text, in
order, and the results are concatenated; any call that exhausts its
retries raises, aborting the whole `embed_texts` call.  `embedOne`
models one (deterministic) remote embedding call, `.error ()` the
exhausted-retries raise; the sub-batching of the source only groups the
calls and does not change the successful result or the abort-on-failure
behaviour. -/
def embed_texts (embedOne : String → Except Unit Vec) :
    List String → Except Unit (List Vec)
  | [] => .ok []
  | t :: ts => do
    let v ← embedOne t
    let vs ← embed_texts embedOne ts
    .ok (v :: vs)

/-! ### Incremental index builder (`src/incremental_indexer.py`) -/

/-- A document's metadata mapping; absent keys are `none`
(`doc.get('metadata', {}).get(key, default)` in the source). -/
structure DocMeta where
  url : Option String
  title : Option String
  created_at : Option String
deriving DecidableEq

/-- An incoming document `{'id': ..., 'text': ..., 'metadata': ...}`;
`id` is `none` when the key is absent. -/
structure Document where
  id : Option String
  text : String
  metadata : DocMeta
deriving DecidableEq

/-- `_get_doc_id(doc)`: the given id (as a string), else the md5 hash of
`text + metadata.get('url', '')`.  `md5` is the external hash
function, a parameter of the model. -/
def get_doc_id (md5 : String → String) (doc : Document) : String :=
  match doc.id with
  | some i => i
  | none => md5 (doc.text ++ doc.metadata.url.getD "")

/-- The metadata record the Builder attaches to one chunk. -/
structure ChunkMeta where
  doc_id : String
  chunk_id : String
  text : String
  source : String
  title : String
  created_at : String
deriving DecidableEq

/-- `checkpoint_info.json` content (the wall-clock `timestamp` field is
outside the model). -/
structure CheckpointInfo where
  docs_processed : Nat
  total_chunks : Nat
  processed_ids_count : Nat
deriving DecidableEq

/-- The checkpoint directory: `processed_ids.pkl` and
`checkpoint_info.json`, each `none` until first written. -/
structure CheckpointDisk where
  processed_file : Option (Finset String)
  info_file : Option CheckpointInfo
deriving DecidableEq

/-- The external collaborators and constructor parameters of one
`IncrementalIndexBuilder` run. -/
structure Env where
  md5 : String → String
  tokenize : String → Option (List Nat)
  decode : List Nat → String
  embedOne : String → Except Unit Vec
  batch_size : Nat
  chunk_size : Nat
  chunk_overlap : Nat

/-- The Builder's persistent state during `process_documents`: the
in-memory `self.processed_ids`, `self.total_chunks`, the checkpoint
directory on disk, and the `FaissIndexer` being filled. -/
structure RunState where
  processed_ids : Finset String
  total_chunks : Nat
  disk : CheckpointDisk
  indexer : FaissState ChunkMeta
deriving DecidableEq

/-- Constructing `IncrementalIndexBuilder(...)`: `processed_ids` is
loaded from `processed_ids.pkl` when present (else empty) and
`total_chunks` starts at `0`. -/
def newBuilder (disk : CheckpointDisk) (indexer : FaissState ChunkMeta) :
    RunState :=
  { processed_ids := disk.processed_file.getD ∅,
    total_chunks := 0, disk := disk, indexer := indexer }

/-- `_save_checkpoint(docs_processed)`: writes `processed_ids.pkl` and
`checkpoint_info.json`. -/
def saveCheckpoint (docs_processed : Nat) (s : RunState) : RunState :=
  { s with disk :=
      { processed_file := some s.processed_ids,
        info_file := some
          { docs_processed := docs_processed,
            total_chunks := s.total_chunks,
            processed_ids_count := s.processed_ids.card } } }

/-- `_process_batch(texts, metadatas, indexer)`: embed the texts (an
exhausted-retries failure raises before any mutation), add vectors and
metadata to the index, and bump `self.total_chunks` by `len(texts)`. -/
def processBatch (env : Env) (texts : List String)
    (metadatas : List ChunkMeta) (s : RunState) : Except Unit RunState :=
  match embed_texts env.embedOne texts with
  | .error e => .error e
  | .ok vectors =>
    .ok { s with indexer := s.indexer.add vectors metadatas,
                 total_chunks := s.total_chunks + texts.length }

/-- The loop-local variables of `process_documents` together with the
Builder state they update. -/
structure LoopState where
  rs : RunState
  batch_texts : List String
  batch_metas : List ChunkMeta
  docs_processed : Nat
  docs_skipped : Nat
deriving DecidableEq

/-- The chunks of one document, with the Builder's configured window
parameters. -/
def docChunks (env : Env) (doc : Document) : List Chunk :=
  chunk_text env.tokenize env.decode doc.text env.chunk_size env.chunk_overlap

/-- The enriched metadata record the Builder builds for one chunk of a
document. -/
def chunkMetaOf (doc_id : String) (doc : Document)
    (c : Chunk) : ChunkMeta :=
  { doc_id := doc_id, chunk_id := c.id, text := c.text,
    source := doc.metadata.url.getD "unknown",
    title := doc.metadata.title.getD "",
    created_at := doc.metadata.created_at.getD "" }

/-- One iteration of the `for doc in documents` loop:
skip documents already in `processed_ids`; silently skip blank text;
otherwise chunk, queue every chunk with its enriched metadata, bump
`docs_processed`, mark the id processed (before any embedding), and
flush the batch when it has reached `batch_size` chunks — a failed
flush propagates (`raise`), a successful one is followed by the
every-10-batches checkpoint test `docs_processed % (batch_size * 10)
== 0`. -/
def stepDoc (env : Env) (ls : LoopState) (doc : Document) :
    LoopState × Except Unit Unit :=
  let doc_id := get_doc_id env.md5 doc
  if doc_id ∈ ls.rs.processed_ids then
    ({ ls with docs_skipped := ls.docs_skipped + 1 }, .ok ())
  else if pyBlank doc.text then (ls, .ok ())
  else
    let chunks := docChunks env doc
    let newMetas := chunks.map (chunkMetaOf doc_id doc)
    let bt := ls.batch_texts ++ chunks.map (·.text)
    let bm := ls.batch_metas ++ newMetas
    let dp := ls.docs_processed + 1
    let rs1 := { ls.rs with
      processed_ids := insert doc_id ls.rs.processed_ids }
    if env.batch_size ≤ bt.length then
      match processBatch env bt bm rs1 with
      | .error e =>
        ({ rs := rs1, batch_texts := bt, batch_metas := bm,
           docs_processed := dp, docs_skipped := ls.docs_skipped },
         .error e)
      | .ok rs2 =>
        let rs3 := if dp % (env.batch_size * 10) = 0
          then saveCheckpoint dp rs2 else rs2
        ({ rs := rs3, batch_texts := [], batch_metas := [],
           docs_processed := dp, docs_skipped := ls.docs_skipped },
         .ok ())
    else
      ({ rs := rs1, batch_texts := bt, batch_metas := bm,
         docs_processed := dp, docs_skipped := ls.docs_skipped },
       .ok ())

/-- The document loop; an exception from a batch flush aborts it,
leaving the state as mutated so far. -/
def runDocs (env : Env) : LoopState → List Document →
    LoopState × Except Unit Unit
  | ls, [] => (ls, .ok ())
  | ls, d :: ds =>
    match stepDoc env ls d with
    | (ls1, .ok _) => runDocs env ls1 ds
    | (ls1, .error e) => (ls1, .error e)

/-- `process_documents(documents, indexer)`: run the loop from empty
batch buffers and zero counters, flush any remaining buffered chunks,
and (only if nothing raised) write the final checkpoint. -/
def initLoop (rs : RunState) : LoopState :=
  { rs := rs, batch_texts := [], batch_metas := [],
    docs_processed := 0, docs_skipped := 0 }

def process_documents (env : Env) (docs : List Document) (rs : RunState) :
    LoopState × Except Unit Unit :=
  match runDocs env (initLoop rs) docs with
  | (ls, .ok _) =>
    match (if ls.batch_texts.isEmpty then .ok ls.rs
           else processBatch env ls.batch_texts ls.batch_metas ls.rs) with
    | .error e => (ls, .error e)
    | .ok rs2 =>
      ({ ls with rs := saveCheckpoint ls.docs_processed rs2,
                 batch_texts := [], batch_metas := [] }, .ok ())
  | (ls, .error e) => (ls, .error e)

set_option maxRecDepth 100000

/-! ### Claim C1 — `query` on an empty or under-filled index -/

/-- A tokenizer stub used by concrete evaluations. -/
def cTok (ts : List Nat) : String → Option (List Nat) := fun _ => some ts

/-- A decoder stub used by concrete evaluations. -/
def cDec : List Nat → String := fun _ => ""

/-- An index holding exactly one record. -/
def stOne : FaissState String :=
  { dim := 2, vecs := [[1, 0]], metadatas := ["m0"] }

/-- Claim C1, evaluated at the failing input: on an empty index,
`query(v, 2)` does return `[]`; but on an index holding one record,
`query(v, 2)` returns TWO results, not one — the faiss padding label
`-1` passes the guard `idx < len(self.metadatas)` and Python's negative
indexing `self.metadatas[-1]` pairs it with the last stored record
again, so the single stored record's metadata is returned twice instead
of once. -/
theorem C1_query_padding_label_duplicates_last_record :
    (FaissIndexer String 2).query [1, 0] 2 = [] ∧
    stOne.metadatas.length = 1 ∧
    stOne.query [1, 0] 2 = [(0, "m0"), (-1, "m0")] ∧
    (stOne.query [1, 0] 2).length = 2 := by decide

/-! ### Claim C2 — invalid chunk parameters -/

/-- Claim C2, evaluated at the failing input: `chunk_text` performs no
parameter validation at all.  With `max_tokens = 1 ≤ 1 = overlap` on a
two-token text, no `InvalidChunkParameters` error is raised (none
exists in the code); the window start never advances
(`start = end - overlap`), and the loop silently emits the same
one-token chunk until the `max_chunks = 1000` safety cap stops it. -/
theorem C2_chunk_text_invalid_params_silently_produces_chunks :
    (chunk_text (cTok [0, 1]) cDec "ab" 1 1).length = 1000 ∧
    ((chunk_text (cTok [0, 1]) cDec "ab" 1 1).map fun c =>
      (c.start_token, c.end_token)).take 3 = [(0, 1), (0, 1), (0, 1)] := by
  constructor
  · decide
  · decide

/-! ### Claim C3 — windowing correctness for `m > o ≥ 0` -/

/-- Claim C3, evaluated at the failing input (the spec's own chunking
scenario: 8 tokens, `max_tokens = 4`, `overlap = 1`, which satisfies
`m > o ≥ 0`): the loop advances `start` by `end - overlap` with no exit
once `end` is clamped to `len(tokens)`, so after the chunks `[0,4)`,
`[3,7)`, `[6,8)` it emits `[7,8)` repeatedly — consecutive starts stop
advancing by `m - o = 3`, the same interval is emitted again and again,
and the result is cut off only by the 1000-chunk safety cap instead of
the expected three-or-four chunk contiguous cover of `[0, 8)`. -/
theorem C3_chunk_text_valid_params_tail_chunk_repeats_to_cap :
    ((chunk_text (cTok [0, 1, 2, 3, 4, 5, 6, 7]) cDec "a b c d e f g h" 4 1).map
      fun c => (c.start_token, c.end_token)).take 5 =
        [(0, 4), (3, 7), (6, 8), (7, 8), (7, 8)] ∧
    (chunk_text (cTok [0, 1, 2, 3, 4, 5, 6, 7]) cDec "a b c d e f g h" 4 1).length
      = 1000 := by
  constructor
  · decide
  · decide

/-! ### Claim C6 — save/load round trip -/

/-- Two `FaissState`s with the same stored vectors and the same metadata
answer every query identically (`query` reads nothing else). -/
theorem FaissState.query_congr {M : Type} {s t : FaissState M}
    (hv : s.vecs = t.vecs) (hm : s.metadatas = t.metadatas)
    (v : Vec) (k : Nat) : s.query v k = t.query v k := by
  cases s; cases t
  cases hv; cases hm
  simp [FaissState.query, FaissState.search, FaissState.sortedHits]

/-- Claim C6: for every index state reachable by a sequence of `add`
calls, `save()` followed by `load()` on a fresh `FaissIndexer` succeeds
and reproduces an index with the identical metadata sequence, the
identical stored-vector sequence in the same order (so the `i`-th
metadata record still corresponds to the `i`-th added vector), and
identical results — scores included — for every query. -/
theorem C6_save_load_roundtrip {M : Type} (dim : Nat)
    (batches : List (List Vec × List M)) (d0 : FaissDisk M) :
    ((FaissIndexer M dim).load
        ((batches.foldl (fun s p => s.add p.1 p.2)
          (FaissIndexer M dim)).save d0)).2 = true ∧
    ((FaissIndexer M dim).load
        ((batches.foldl (fun s p => s.add p.1 p.2)
          (FaissIndexer M dim)).save d0)).1.metadatas =
      (batches.foldl (fun s p => s.add p.1 p.2)
        (FaissIndexer M dim)).metadatas ∧
    ((FaissIndexer M dim).load
        ((batches.foldl (fun s p => s.add p.1 p.2)
          (FaissIndexer M dim)).save d0)).1.vecs =
      (batches.foldl (fun s p => s.add p.1 p.2)
        (FaissIndexer M dim)).vecs ∧
    ∀ (v : Vec) (k : Nat),
      ((FaissIndexer M dim).load
          ((batches.foldl (fun s p => s.add p.1 p.2)
            (FaissIndexer M dim)).save d0)).1.query v k =
        (batches.foldl (fun s p => s.add p.1 p.2)
          (FaissIndexer M dim)).query v k := by
  refine ⟨rfl, rfl, rfl, fun v k => ?_⟩
  exact FaissState.query_congr rfl rfl v k

/-! ### Builder step lemmas -/

/-- The ids of the non-blank documents of a stream. -/
def nonblankIds (md5 : String → String) : List Document → Finset String
  | [] => ∅
  | d :: ds =>
    if pyBlank d.text then nonblankIds md5 ds
    else insert (get_doc_id md5 d) (nonblankIds md5 ds)

/-- A document already recorded in `processed_ids` is counted skipped
and nothing else happens. -/
theorem stepDoc_skip {env : Env} {ls : LoopState} {doc : Document}
    (h : get_doc_id env.md5 doc ∈ ls.rs.processed_ids) :
    stepDoc env ls doc =
      ({ ls with docs_skipped := ls.docs_skipped + 1 }, .ok ()) := by
  simp [stepDoc, h]

/-- A fresh blank document is silently ignored: the step is a complete
no-op — nothing is marked, no counter moves, no chunk is queued. -/
theorem stepDoc_blank {env : Env} {ls : LoopState} {doc : Document}
    (h1 : get_doc_id env.md5 doc ∉ ls.rs.processed_ids)
    (h2 : pyBlank doc.text = true) :
    stepDoc env ls doc = (ls, .ok ()) := by
  simp [stepDoc, h1, h2]

/-- `embed_texts` is order-preserving, one vector per input text. -/
theorem embed_texts_length {f : String → Except Unit Vec} :
    ∀ {ts : List String} {vs : List Vec},
      embed_texts f ts = .ok vs → vs.length = ts.length := by
  intro ts
  induction ts with
  | nil => intro vs h; cases h; rfl
  | cons t ts ih =>
    intro vs h
    simp only [embed_texts, bind, Except.bind] at h
    cases hf : f t with
    | error e => rw [hf] at h; cases h
    | ok v =>
      rw [hf] at h
      cases he : embed_texts f ts with
      | error e => rw [he] at h; cases h
      | ok vs' =>
        rw [he] at h
        cases h
        simp [ih he]

/-- A successful `_process_batch` embeds the texts and appends to the
index, leaving `processed_ids` and the checkpoint directory alone. -/
theorem processBatch_ok {env : Env} {ts : List String}
    {ms : List ChunkMeta} {rs rs' : RunState}
    (h : processBatch env ts ms rs = .ok rs') :
    ∃ vs, embed_texts env.embedOne ts = .ok vs ∧ vs.length = ts.length ∧
      rs' = { rs with indexer := rs.indexer.add vs ms,
                      total_chunks := rs.total_chunks + ts.length } := by
  unfold processBatch at h
  cases he : embed_texts env.embedOne ts with
  | error e => rw [he] at h; cases h
  | ok vs =>
    rw [he] at h
    cases h
    exact ⟨vs, rfl, embed_texts_length he, rfl⟩

/-- A failed `_process_batch` is a failed embedding call; no state is
produced (nothing was mutated before the raise). -/
theorem processBatch_error {env : Env} {ts : List String}
    {ms : List ChunkMeta} {rs : RunState} {e : Unit}
    (h : processBatch env ts ms rs = .error e) :
    embed_texts env.embedOne ts = .error e := by
  unfold processBatch at h
  cases he : embed_texts env.embedOne ts with
  | error e' => rw [he] at h
  | ok vs => rw [he] at h; cases h

theorem stepDoc_fresh_noflush {env : Env} {ls : LoopState} {doc : Document}
    (h1 : get_doc_id env.md5 doc ∉ ls.rs.processed_ids)
    (h2 : pyBlank doc.text = false)
    (h3 : (ls.batch_texts ++ (docChunks env doc).map (·.text)).length
            < env.batch_size) :
    stepDoc env ls doc =
      ({ rs := { ls.rs with processed_ids := insert (get_doc_id env.md5 doc) ls.rs.processed_ids },
         batch_texts := ls.batch_texts ++ (docChunks env doc).map (·.text),
         batch_metas := ls.batch_metas ++
           (docChunks env doc).map (chunkMetaOf (get_doc_id env.md5 doc) doc),
         docs_processed := ls.docs_processed + 1,
         docs_skipped := ls.docs_skipped }, .ok ()) := by
  have h3' : ¬ env.batch_size ≤
      ls.batch_texts.length + (docChunks env doc).length :=
    Nat.not_le.mpr (by simpa using h3)
  simp [stepDoc, h1, h2, h3']

theorem stepDoc_fresh_flush_error {env : Env} {ls : LoopState} {doc : Document} {e : Unit}
    (h1 : get_doc_id env.md5 doc ∉ ls.rs.processed_ids)
    (h2 : pyBlank doc.text = false)
    (h3 : env.batch_size ≤
      (ls.batch_texts ++ (docChunks env doc).map (·.text)).length)
    (hpb : processBatch env
        (ls.batch_texts ++ (docChunks env doc).map (·.text))
        (ls.batch_metas ++
          (docChunks env doc).map (chunkMetaOf (get_doc_id env.md5 doc) doc))
        { ls.rs with processed_ids := insert (get_doc_id env.md5 doc) ls.rs.processed_ids } = .error e) :
    stepDoc env ls doc =
      ({ rs := { ls.rs with processed_ids := insert (get_doc_id env.md5 doc) ls.rs.processed_ids },
         batch_texts := ls.batch_texts ++ (docChunks env doc).map (·.text),
         batch_metas := ls.batch_metas ++
           (docChunks env doc).map (chunkMetaOf (get_doc_id env.md5 doc) doc),
         docs_processed := ls.docs_processed + 1,
         docs_skipped := ls.docs_skipped }, .error e) := by
  have h3' : env.batch_size ≤
      ls.batch_texts.length + (docChunks env doc).length := by simpa using h3
  simp [stepDoc, h1, h2, h3', hpb]

theorem stepDoc_fresh_flush_ok {env : Env} {ls : LoopState} {doc : Document} {rs2 : RunState}
    (h1 : get_doc_id env.md5 doc ∉ ls.rs.processed_ids)
    (h2 : pyBlank doc.text = false)
    (h3 : env.batch_size ≤
      (ls.batch_texts ++ (docChunks env doc).map (·.text)).length)
    (hpb : processBatch env
        (ls.batch_texts ++ (docChunks env doc).map (·.text))
        (ls.batch_metas ++
          (docChunks env doc).map (chunkMetaOf (get_doc_id env.md5 doc) doc))
        { ls.rs with processed_ids := insert (get_doc_id env.md5 doc) ls.rs.processed_ids } = .ok rs2) :
    stepDoc env ls doc =
      ({ rs := if (ls.docs_processed + 1) % (env.batch_size * 10) = 0
               then saveCheckpoint (ls.docs_processed + 1) rs2 else rs2,
         batch_texts := [], batch_metas := [],
         docs_processed := ls.docs_processed + 1,
         docs_skipped := ls.docs_skipped }, .ok ()) := by
  have h3' : env.batch_size ≤
      ls.batch_texts.length + (docChunks env doc).length := by simpa using h3
  simp [stepDoc, h1, h2, h3', hpb]

/-- A successful `_process_batch` does not touch `processed_ids` or the
checkpoint directory. -/
theorem processBatch_ok_fields {env : Env} {ts : List String}
    {ms : List ChunkMeta} {rs rs' : RunState}
    (h : processBatch env ts ms rs = .ok rs') :
    rs'.processed_ids = rs.processed_ids ∧ rs'.disk = rs.disk := by
  obtain ⟨vs, -, -, rfl⟩ := processBatch_ok h
  exact ⟨rfl, rfl⟩

/-- One step never lets a given id `t` slip into memory or onto disk
when `t` is absent so far and the only documents carrying id `t` are
blank. -/
theorem stepDoc_avoid {env : Env} {ls : LoopState} {doc : Document}
    {t : String}
    (hd : get_doc_id env.md5 doc = t → pyBlank doc.text = true)
    (hm : t ∉ ls.rs.processed_ids)
    (hs : ∀ S, ls.rs.disk.processed_file = some S → t ∉ S) :
    t ∉ (stepDoc env ls doc).1.rs.processed_ids ∧
    (∀ S, (stepDoc env ls doc).1.rs.disk.processed_file = some S →
      t ∉ S) := by
  by_cases hin : get_doc_id env.md5 doc ∈ ls.rs.processed_ids
  · rw [stepDoc_skip hin]; exact ⟨hm, hs⟩
  by_cases hbl : pyBlank doc.text = true
  · rw [stepDoc_blank hin hbl]; exact ⟨hm, hs⟩
  have hbl' : pyBlank doc.text = false := by simpa using hbl
  have hne' : ¬ t = get_doc_id env.md5 doc := fun he =>
    hbl (hd he.symm)
  have hm' : t ∉ insert (get_doc_id env.md5 doc) ls.rs.processed_ids := by
    simp [Finset.mem_insert, hne', hm]
  by_cases hfl : env.batch_size ≤
      (ls.batch_texts ++ (docChunks env doc).map (·.text)).length
  · cases hpb : processBatch env
        (ls.batch_texts ++ (docChunks env doc).map (·.text))
        (ls.batch_metas ++
          (docChunks env doc).map (chunkMetaOf (get_doc_id env.md5 doc) doc))
        { ls.rs with processed_ids := insert (get_doc_id env.md5 doc) ls.rs.processed_ids } with
    | error e =>
      rw [stepDoc_fresh_flush_error hin hbl' hfl hpb]
      exact ⟨hm', hs⟩
    | ok rs2 =>
      obtain ⟨hp2, hd2⟩ := processBatch_ok_fields hpb
      rw [stepDoc_fresh_flush_ok hin hbl' hfl hpb]
      by_cases hcp : (ls.docs_processed + 1) % (env.batch_size * 10) = 0
      · simp only [hcp, if_true]
        refine ⟨by simpa [saveCheckpoint, hp2] using hm', ?_⟩
        intro S hS
        simp only [saveCheckpoint, Option.some.injEq] at hS
        subst hS
        simpa [hp2] using hm'
      · simp only [hcp, if_false]
        refine ⟨by simpa [hp2] using hm', ?_⟩
        intro S hS
        rw [hd2] at hS
        exact hs S hS
  · rw [stepDoc_fresh_noflush hin hbl' (Nat.not_le.1 hfl)]
    exact ⟨hm', hs⟩

/-- The whole document loop preserves absence of `t` (memory and disk)
whenever every stream document carrying id `t` is blank, regardless of
how the loop ends. -/
theorem runDocs_avoid {env : Env} {t : String} :
    ∀ (docs : List Document) (ls : LoopState),
      (∀ d ∈ docs, get_doc_id env.md5 d = t → pyBlank d.text = true) →
      t ∉ ls.rs.processed_ids →
      (∀ S, ls.rs.disk.processed_file = some S → t ∉ S) →
      t ∉ (runDocs env ls docs).1.rs.processed_ids ∧
      (∀ S, (runDocs env ls docs).1.rs.disk.processed_file = some S →
        t ∉ S) := by
  intro docs
  induction docs with
  | nil => intro ls _ hm hs; exact ⟨hm, hs⟩
  | cons d ds ih =>
    intro ls hdocs hm hs
    have hstep := @stepDoc_avoid env ls d t
      (hdocs d (by simp)) hm hs
    cases hres : stepDoc env ls d with
    | mk ls1 r =>
      rw [hres] at hstep
      cases r with
      | ok u =>
        cases u
        have heq : runDocs env ls (d :: ds) = runDocs env ls1 ds := by
          simp [runDocs, hres]
        rw [heq]
        exact ih ls1 (fun d' hd' => hdocs d' (by simp [hd'])) hstep.1 hstep.2
      | error e =>
        have heq : runDocs env ls (d :: ds) = (ls1, .error e) := by
          simp [runDocs, hres]
        rw [heq]
        exact hstep

/-- Absence of `t` survives a full `process_documents` call (the final
flush does not touch `processed_ids`; the final checkpoint writes the
in-memory set, which does not contain `t`). -/
theorem process_documents_avoid {env : Env} {t : String}
    {docs : List Document} {rs0 : RunState}
    (hdocs : ∀ d ∈ docs, get_doc_id env.md5 d = t → pyBlank d.text = true)
    (hm : t ∉ rs0.processed_ids)
    (hs : ∀ S, rs0.disk.processed_file = some S → t ∉ S) :
    t ∉ (process_documents env docs rs0).1.rs.processed_ids ∧
    (∀ S, (process_documents env docs rs0).1.rs.disk.processed_file
        = some S → t ∉ S) := by
  have hrun := runDocs_avoid docs (initLoop rs0) hdocs hm hs
  unfold process_documents
  cases hres : runDocs env (initLoop rs0) docs with
  | mk ls r =>
    rw [hres] at hrun
    cases r with
    | error e => exact hrun
    | ok u =>
      cases u
      cases hbe : ls.batch_texts.isEmpty with
      | true =>
        simp only [hbe, if_true]
        refine ⟨hrun.1, ?_⟩
        intro S hS
        simp only [saveCheckpoint, Option.some.injEq] at hS
        subst hS
        exact hrun.1
      | false =>
        cases hpb : processBatch env ls.batch_texts ls.batch_metas ls.rs with
        | error e =>
          simp only [hbe, Bool.false_eq_true, if_false, hpb]
          exact hrun
        | ok rs2 =>
          obtain ⟨hp2, hd2⟩ := processBatch_ok_fields hpb
          simp only [hbe, Bool.false_eq_true, if_false, hpb]
          refine ⟨by simpa [saveCheckpoint, hp2] using hrun.1, ?_⟩
          intro S hS
          simp only [saveCheckpoint, Option.some.injEq] at hS
          subst hS
          simpa [hp2] using hrun.1

/-! ### Claim C8 — blank documents are never marked processed -/

/-- Claim C8: a document whose text is empty or whitespace-only is
never added to `ProcessedIdSet` — its step is a complete no-op (so it
is not counted as processed or skipped either), its id reaches neither
the in-memory set nor any checkpoint written to disk during the run,
and a Builder constructed from the resulting checkpoint directory does
not contain the id, so the document is re-examined (not skipped) on
every subsequent run. -/
theorem C8_blank_document_never_marked_and_always_retried
    (env : Env) (docs : List Document) (rs0 : RunState)
    (ix : FaissState ChunkMeta) (t : String)
    (hdocs : ∀ d ∈ docs, get_doc_id env.md5 d = t → pyBlank d.text = true)
    (hm : t ∉ rs0.processed_ids)
    (hs : ∀ S, rs0.disk.processed_file = some S → t ∉ S) :
    (∀ (d : Document) (ls : LoopState), get_doc_id env.md5 d = t →
        pyBlank d.text = true → t ∉ ls.rs.processed_ids →
        stepDoc env ls d = (ls, .ok ())) ∧
    t ∉ (process_documents env docs rs0).1.rs.processed_ids ∧
    (∀ S, (process_documents env docs rs0).1.rs.disk.processed_file
        = some S → t ∉ S) ∧
    t ∉ (newBuilder (process_documents env docs rs0).1.rs.disk
          ix).processed_ids := by
  obtain ⟨hmem, hdisk⟩ := process_documents_avoid hdocs hm hs
  refine ⟨?_, hmem, hdisk, ?_⟩
  · intro d ls hid hbl hnotin
    exact stepDoc_blank (by rw [hid]; exact hnotin) hbl
  · unfold newBuilder
    cases hf : (process_documents env docs rs0).1.rs.disk.processed_file with
    | none => simp
    | some S => simpa using hdisk S hf

/-! Concrete fixtures for witnesses and counterexamples. -/

/-- An always-empty document metadata mapping. -/
def wMeta : DocMeta := { url := none, title := none, created_at := none }

/-- A document with an explicit id. -/
def wDoc (i t : String) : Document :=
  { id := some i, text := t, metadata := wMeta }

/-- A benign environment: every text tokenizes to one token, embedding
always succeeds, batch size 2, window 1/0. -/
def wEnv : Env :=
  { md5 := id, tokenize := fun _ => some [0], decode := fun _ => "d",
    embedOne := fun _ => .ok [1], batch_size := 2, chunk_size := 1,
    chunk_overlap := 0 }

/-- An empty checkpoint directory. -/
def emptyDisk : CheckpointDisk := { processed_file := none, info_file := none }

/-- A Builder freshly constructed over an empty checkpoint directory
and a fresh index. -/
def rsInit : RunState := newBuilder emptyDisk (FaissIndexer ChunkMeta 2)

/-- Witness for C8 at a concrete input: one whitespace-only document,
id `"a"`. -/
theorem C8_witness :
    (∀ d ∈ [wDoc "a" " "], get_doc_id wEnv.md5 d = "a" →
      pyBlank d.text = true) ∧
    "a" ∉ (process_documents wEnv [wDoc "a" " "] rsInit).1.rs.processed_ids ∧
    "a" ∉ (newBuilder (process_documents wEnv [wDoc "a" " "] rsInit).1.rs.disk
            (FaissIndexer ChunkMeta 2)).processed_ids := by
  have h := C8_blank_document_never_marked_and_always_retried
    wEnv [wDoc "a" " "] rsInit (FaissIndexer ChunkMeta 2) "a"
    (by decide) (by decide) (fun S hS => by cases hS)
  exact ⟨by decide, h.2.1, h.2.2.2⟩

/-! ### Claim C9 — tokenizer failure on one document -/

/-- An environment whose tokenizer raises on every text. -/
def envTokFail : Env := { wEnv with tokenize := fun _ => none }

/-- Counterexample to claim C9 as stated: a non-empty document whose
tokenization fails is NOT handled as skipped — the run continues and
the document contributes no chunks, but it is counted as processed
(`docs_processed = 1`, `docs_skipped = 0`) and its id is added to
`ProcessedIdSet`. -/
theorem C9_counterexample :
    (process_documents envTokFail [wDoc "a" "x"] rsInit).1.docs_processed = 1 ∧
    (process_documents envTokFail [wDoc "a" "x"] rsInit).1.docs_skipped = 0 ∧
    "a" ∈ (process_documents envTokFail [wDoc "a" "x"] rsInit).1.rs.processed_ids ∧
    (process_documents envTokFail [wDoc "a" "x"] rsInit).1.rs.total_chunks = 0 ∧
    (process_documents envTokFail [wDoc "a" "x"] rsInit).2 = .ok () := by
  decide

/-- Claim C9 as amended: for a fresh document with non-empty text whose
tokenization fails (the chunker returns no chunks), the run does
continue to the next document (the step returns successfully and the
loop proceeds) and the document contributes no chunks to the batch or
the index — but the document is counted as processed and its id is
added to `ProcessedIdSet`, not handled as skipped. -/
theorem C9_amended_tokenizer_failure_marks_processed
    (env : Env) (ls : LoopState) (doc : Document) (ds : List Document)
    (h1 : get_doc_id env.md5 doc ∉ ls.rs.processed_ids)
    (h2 : pyBlank doc.text = false)
    (hc : docChunks env doc = [])
    (hb : ls.batch_texts.length < env.batch_size) :
    stepDoc env ls doc =
      ({ ls with
          rs := { ls.rs with processed_ids := insert (get_doc_id env.md5 doc) ls.rs.processed_ids },
          docs_processed := ls.docs_processed + 1 }, .ok ()) ∧
    runDocs env ls (doc :: ds) =
      runDocs env
        ({ ls with
            rs := { ls.rs with processed_ids := insert (get_doc_id env.md5 doc) ls.rs.processed_ids },
            docs_processed := ls.docs_processed + 1 }) ds := by
  have hstep := stepDoc_fresh_noflush h1 h2 (by simpa [hc] using hb)
  rw [hc] at hstep
  simp only [List.map_nil, List.append_nil] at hstep
  refine ⟨hstep, ?_⟩
  simp [runDocs, hstep]

/-- Witness for the amended C9 at a concrete input: a fresh one-document
state whose tokenizer rejects the text. -/
theorem C9_witness :
    stepDoc envTokFail (initLoop rsInit) (wDoc "a" "x") =
      ({ initLoop rsInit with
          rs := { (initLoop rsInit).rs with
                    processed_ids := insert (get_doc_id envTokFail.md5 (wDoc "a" "x")) (initLoop rsInit).rs.processed_ids },
          docs_processed := (initLoop rsInit).docs_processed + 1 }, .ok ()) :=
  (C9_amended_tokenizer_failure_marks_processed envTokFail (initLoop rsInit)
    (wDoc "a" "x") [] (by decide) (by decide) (by decide) (by decide)).1

/-- Membership in `nonblankIds`. -/
theorem mem_nonblankIds {md5 : String → String} :
    ∀ {docs : List Document} {d : Document}, d ∈ docs →
      pyBlank d.text = false →
      get_doc_id md5 d ∈ nonblankIds md5 docs := by
  intro docs
  induction docs with
  | nil => intro d h; cases h
  | cons d' ds ih =>
    intro d hd hbl
    rcases List.mem_cons.1 hd with rfl | hd'
    · simp [nonblankIds, hbl]
    · by_cases hbl' : pyBlank d'.text = true
      · simpa [nonblankIds, hbl'] using ih hd' hbl
      · have : pyBlank d'.text = false := by simpa using hbl'
        simp only [nonblankIds, this, Bool.false_eq_true, if_false]
        exact Finset.mem_insert_of_mem (ih hd' hbl)

/-- After a successful loop, the in-memory set is the initial set plus
the ids of exactly the non-blank documents of the stream. -/
theorem runDocs_ok_processed {env : Env} :
    ∀ (docs : List Document) (ls ls' : LoopState),
      runDocs env ls docs = (ls', .ok ()) →
      ls'.rs.processed_ids =
        ls.rs.processed_ids ∪ nonblankIds env.md5 docs := by
  intro docs
  induction docs with
  | nil =>
    intro ls ls' h
    cases h
    simp [nonblankIds]
  | cons d ds ih =>
    intro ls ls' h
    by_cases hin : get_doc_id env.md5 d ∈ ls.rs.processed_ids
    · rw [show runDocs env ls (d :: ds) =
          runDocs env { ls with docs_skipped := ls.docs_skipped + 1 } ds by
            simp [runDocs, stepDoc_skip hin]] at h
      rw [ih _ _ h]
      by_cases hbl : pyBlank d.text = true
      · simp [nonblankIds, hbl]
      · have hbl' : pyBlank d.text = false := by simpa using hbl
        simp only [nonblankIds, hbl', Bool.false_eq_true, if_false]
        rw [Finset.union_insert, Finset.insert_eq_self.2]
        exact Finset.mem_union_left _ hin
    · by_cases hbl : pyBlank d.text = true
      · rw [show runDocs env ls (d :: ds) = runDocs env ls ds by
            simp [runDocs, stepDoc_blank hin hbl]] at h
        rw [ih _ _ h]
        simp [nonblankIds, hbl]
      · have hbl' : pyBlank d.text = false := by simpa using hbl
        by_cases hfl : env.batch_size ≤
            (ls.batch_texts ++ (docChunks env d).map (·.text)).length
        · cases hpb : processBatch env
              (ls.batch_texts ++ (docChunks env d).map (·.text))
              (ls.batch_metas ++
                (docChunks env d).map (chunkMetaOf (get_doc_id env.md5 d) d))
              { ls.rs with processed_ids := insert (get_doc_id env.md5 d) ls.rs.processed_ids } with
          | error e =>
            have hst := stepDoc_fresh_flush_error hin hbl' hfl hpb
            simp [runDocs, hst] at h
          | ok rs2 =>
            obtain ⟨hp2, -⟩ := processBatch_ok_fields hpb
            rw [show runDocs env ls (d :: ds) =
                runDocs env
                  ({ rs := if (ls.docs_processed + 1) % (env.batch_size * 10) = 0
                           then saveCheckpoint (ls.docs_processed + 1) rs2 else rs2,
                     batch_texts := [], batch_metas := [],
                     docs_processed := ls.docs_processed + 1,
                     docs_skipped := ls.docs_skipped }) ds by
                simp [runDocs, stepDoc_fresh_flush_ok hin hbl' hfl hpb]] at h
            rw [ih _ _ h]
            have hproc : (if (ls.docs_processed + 1) % (env.batch_size * 10) = 0
                then saveCheckpoint (ls.docs_processed + 1) rs2
                else rs2).processed_ids =
                insert (get_doc_id env.md5 d) ls.rs.processed_ids := by
              split
              · simpa [saveCheckpoint] using hp2
              · exact hp2
            rw [hproc]
            simp only [nonblankIds, hbl', Bool.false_eq_true, if_false]
            rw [Finset.insert_union, Finset.union_insert]
        · rw [show runDocs env ls (d :: ds) =
              runDocs env
                ({ rs := { ls.rs with processed_ids := insert (get_doc_id env.md5 d) ls.rs.processed_ids },
                   batch_texts := ls.batch_texts ++ (docChunks env d).map (·.text),
                   batch_metas := ls.batch_metas ++
                     (docChunks env d).map (chunkMetaOf (get_doc_id env.md5 d) d),
                   docs_processed := ls.docs_processed + 1,
                   docs_skipped := ls.docs_skipped }) ds by
              simp [runDocs, stepDoc_fresh_noflush hin hbl' (Nat.not_le.1 hfl)]] at h
          rw [ih _ _ h]
          simp only [nonblankIds, hbl', Bool.false_eq_true, if_false]
          rw [Finset.insert_union, Finset.union_insert]

/-- A successful `process_documents` run ends with the in-memory set
equal to the initial set plus all non-blank ids, and the final
checkpoint persists exactly that set. -/
theorem process_documents_ok_processed {env : Env}
    {docs : List Document} {rs0 : RunState} {ls : LoopState}
    (h : process_documents env docs rs0 = (ls, .ok ())) :
    ls.rs.processed_ids = rs0.processed_ids ∪ nonblankIds env.md5 docs ∧
    ls.rs.disk.processed_file = some ls.rs.processed_ids := by
  unfold process_documents at h
  cases hres : runDocs env (initLoop rs0) docs with
  | mk ls1 r =>
    rw [hres] at h
    cases r with
    | error e => simp at h
    | ok u =>
      cases u
      have hchar := runDocs_ok_processed docs (initLoop rs0) ls1 hres
      cases hbe : ls1.batch_texts.isEmpty with
      | true =>
        simp only [hbe, if_true] at h
        cases h
        exact ⟨hchar, rfl⟩
      | false =>
        simp only [hbe, Bool.false_eq_true, if_false] at h
        cases hpb : processBatch env ls1.batch_texts ls1.batch_metas ls1.rs with
        | error e => rw [hpb] at h; simp at h
        | ok rs2 =>
          rw [hpb] at h
          obtain ⟨hp2, -⟩ := processBatch_ok_fields hpb
          cases h
          exact ⟨by simpa [saveCheckpoint, hp2] using hchar, rfl⟩

/-- When every stream document is already recorded or blank, the loop
only counts skips: the state is unchanged apart from `docs_skipped`,
which grows by the number of documents whose id is recorded. -/
theorem runDocs_all_skip {env : Env} :
    ∀ (docs : List Document) (ls : LoopState),
      (∀ d ∈ docs, get_doc_id env.md5 d ∈ ls.rs.processed_ids ∨
        pyBlank d.text = true) →
      runDocs env ls docs =
        ({ ls with docs_skipped := ls.docs_skipped +
            (docs.filter fun d =>
              decide (get_doc_id env.md5 d ∈ ls.rs.processed_ids)).length },
         .ok ()) := by
  intro docs
  induction docs with
  | nil => intro ls _; rfl
  | cons d ds ih =>
    intro ls hall
    by_cases hin : get_doc_id env.md5 d ∈ ls.rs.processed_ids
    · have hrec := ih { ls with docs_skipped := ls.docs_skipped + 1 }
        (fun d' hd' => hall d' (by simp [hd']))
      have hcount : (List.filter
          (fun d' => decide (get_doc_id env.md5 d' ∈ ls.rs.processed_ids))
          (d :: ds)).length =
          (List.filter
            (fun d' => decide (get_doc_id env.md5 d' ∈ ls.rs.processed_ids))
            ds).length + 1 := by
        simp [List.filter_cons, hin]
      simp only [runDocs, stepDoc_skip hin]
      rw [hrec, hcount]
      simp only [Prod.mk.injEq, LoopState.mk.injEq]
      refine ⟨⟨trivial, trivial, trivial, trivial, ?_⟩, trivial⟩
      omega
    · have hbl : pyBlank d.text = true :=
        (hall d (by simp)).resolve_left hin
      have hrec := ih ls (fun d' hd' => hall d' (by simp [hd']))
      have hcount : (List.filter
          (fun d' => decide (get_doc_id env.md5 d' ∈ ls.rs.processed_ids))
          (d :: ds)).length =
          (List.filter
            (fun d' => decide (get_doc_id env.md5 d' ∈ ls.rs.processed_ids))
            ds).length := by
        simp [List.filter_cons, hin]
      simp only [runDocs, stepDoc_blank hin hbl]
      rw [hrec, hcount]

/-- A full run over a stream of already-recorded-or-blank documents
flushes nothing and only writes the final checkpoint: recorded
documents are counted skipped, blank ones are silently re-ignored. -/
theorem process_documents_all_skip {env : Env} {docs : List Document}
    {rs0 : RunState}
    (hall : ∀ d ∈ docs, get_doc_id env.md5 d ∈ rs0.processed_ids ∨
      pyBlank d.text = true) :
    process_documents env docs rs0 =
      ({ rs := saveCheckpoint 0 rs0, batch_texts := [], batch_metas := [],
         docs_processed := 0,
         docs_skipped := (docs.filter fun d =>
           decide (get_doc_id env.md5 d ∈ rs0.processed_ids)).length },
       .ok ()) := by
  unfold process_documents
  rw [runDocs_all_skip docs (initLoop rs0) hall]
  simp [initLoop]

/-! ### Claim C4 — idempotent re-run -/

/-- Claim C4 as amended: after a successful Builder run over `D` with
its artifacts persisted, a second run over the same stream `D` against
those artifacts succeeds, indexes zero new chunks (`total_chunks` of
the second run is `0` and the index is bit-for-bit unchanged, so the
final chunk count is identical), counts exactly the documents whose id
is in the persisted set as skipped — which includes every document
with non-blank text; blank-text documents are silently re-ignored
rather than reported skipped. -/
theorem C4_amended_second_run_adds_nothing
    (env : Env) (docs : List Document) (disk0 : CheckpointDisk)
    (ix0 : FaissState ChunkMeta) (ls1 : LoopState)
    (h1 : process_documents env docs (newBuilder disk0 ix0) =
      (ls1, .ok ())) :
    process_documents env docs (newBuilder ls1.rs.disk ls1.rs.indexer) =
      ({ rs := saveCheckpoint 0 (newBuilder ls1.rs.disk ls1.rs.indexer),
         batch_texts := [], batch_metas := [], docs_processed := 0,
         docs_skipped := (docs.filter fun d =>
           decide (get_doc_id env.md5 d ∈ ls1.rs.processed_ids)).length },
       .ok ()) ∧
    (process_documents env docs
      (newBuilder ls1.rs.disk ls1.rs.indexer)).1.rs.total_chunks = 0 ∧
    (process_documents env docs
      (newBuilder ls1.rs.disk ls1.rs.indexer)).1.rs.indexer
        = ls1.rs.indexer ∧
    (∀ d ∈ docs, pyBlank d.text = false →
      get_doc_id env.md5 d ∈ ls1.rs.processed_ids) := by
  obtain ⟨hchar, hdisk⟩ := process_documents_ok_processed h1
  have hset : (newBuilder ls1.rs.disk ls1.rs.indexer).processed_ids =
      ls1.rs.processed_ids := by
    simp [newBuilder, hdisk]
  have hnb : ∀ d ∈ docs, pyBlank d.text = false →
      get_doc_id env.md5 d ∈ ls1.rs.processed_ids := by
    intro d hd hbl
    rw [hchar]
    exact Finset.mem_union_right _ (mem_nonblankIds hd hbl)
  have hall : ∀ d ∈ docs, get_doc_id env.md5 d ∈
      (newBuilder ls1.rs.disk ls1.rs.indexer).processed_ids ∨
      pyBlank d.text = true := by
    intro d hd
    cases hbl : pyBlank d.text with
    | true => exact Or.inr rfl
    | false => exact Or.inl (by rw [hset]; exact hnb d hd hbl)
  have hrun2 := process_documents_all_skip hall
  rw [hset] at hrun2
  refine ⟨hrun2, ?_, ?_, hnb⟩
  · rw [hrun2]; simp [saveCheckpoint, newBuilder]
  · rw [hrun2]; simp [saveCheckpoint, newBuilder]

/-- Counterexample to claim C4 as stated: with a stream consisting of
one whitespace-only document, both runs succeed and the second run
indexes nothing — but it reports `0` documents skipped, not all `1` of
them (the blank document is silently re-ignored, never skipped via the
checkpoint). -/
theorem C4_counterexample :
    (process_documents wEnv [wDoc "b" " "] rsInit).2 = .ok () ∧
    (process_documents wEnv [wDoc "b" " "]
      (newBuilder (process_documents wEnv [wDoc "b" " "] rsInit).1.rs.disk
        (process_documents wEnv [wDoc "b" " "] rsInit).1.rs.indexer)).1.docs_skipped
      = 0 ∧
    ([wDoc "b" " "] : List Document).length = 1 := by decide

/-- Witness for the amended C4 at a concrete input: one ordinary
document, indexed by the first run, skipped by the second. -/
theorem C4_witness :
    (process_documents wEnv [wDoc "a" "x"]
      (newBuilder
        (process_documents wEnv [wDoc "a" "x"] (newBuilder emptyDisk (FaissIndexer ChunkMeta 2))).1.rs.disk
        (process_documents wEnv [wDoc "a" "x"] (newBuilder emptyDisk (FaissIndexer ChunkMeta 2))).1.rs.indexer)).1.rs.total_chunks
      = 0 ∧
    (process_documents wEnv [wDoc "a" "x"]
      (newBuilder
        (process_documents wEnv [wDoc "a" "x"] (newBuilder emptyDisk (FaissIndexer ChunkMeta 2))).1.rs.disk
        (process_documents wEnv [wDoc "a" "x"] (newBuilder emptyDisk (FaissIndexer ChunkMeta 2))).1.rs.indexer)).1.rs.indexer
      = (process_documents wEnv [wDoc "a" "x"] (newBuilder emptyDisk (FaissIndexer ChunkMeta 2))).1.rs.indexer ∧
    (∀ d ∈ [wDoc "a" "x"], pyBlank d.text = false →
      get_doc_id wEnv.md5 d ∈
        (process_documents wEnv [wDoc "a" "x"] (newBuilder emptyDisk (FaissIndexer ChunkMeta 2))).1.rs.processed_ids) := by
  have h2 : (process_documents wEnv [wDoc "a" "x"]
      (newBuilder emptyDisk (FaissIndexer ChunkMeta 2))).2 = .ok () := by decide
  have h1 : process_documents wEnv [wDoc "a" "x"]
      (newBuilder emptyDisk (FaissIndexer ChunkMeta 2)) =
      ((process_documents wEnv [wDoc "a" "x"]
        (newBuilder emptyDisk (FaissIndexer ChunkMeta 2))).1, .ok ()) := by
    rw [← h2]
  have h := C4_amended_second_run_adds_nothing wEnv [wDoc "a" "x"]
    emptyDisk (FaissIndexer ChunkMeta 2) _ h1
  exact ⟨h.2.1, h.2.2.1, h.2.2.2⟩

/-- A failing step is a failing batch flush in the chunked branch: the
document was fresh and non-blank, its id was added to the in-memory set
BEFORE the flush (and is in the final state even though the batch was
never embedded), and the checkpoint directory, the index and
`total_chunks` are exactly as they were before the step. -/
theorem stepDoc_error_facts {env : Env} {ls ls' : LoopState}
    {doc : Document} {e : Unit}
    (h : stepDoc env ls doc = (ls', .error e)) :
    pyBlank doc.text = false ∧
    get_doc_id env.md5 doc ∉ ls.rs.processed_ids ∧
    ls'.rs.processed_ids =
      insert (get_doc_id env.md5 doc) ls.rs.processed_ids ∧
    get_doc_id env.md5 doc ∈ ls'.rs.processed_ids ∧
    ls'.rs.disk = ls.rs.disk ∧
    ls'.rs.indexer = ls.rs.indexer ∧
    ls'.rs.total_chunks = ls.rs.total_chunks ∧
    ls'.batch_texts =
      ls.batch_texts ++ (docChunks env doc).map (·.text) ∧
    embed_texts env.embedOne ls'.batch_texts = .error e := by
  by_cases hin : get_doc_id env.md5 doc ∈ ls.rs.processed_ids
  · rw [stepDoc_skip hin] at h
    simp at h
  by_cases hbl : pyBlank doc.text = true
  · rw [stepDoc_blank hin hbl] at h
    simp at h
  have hbl' : pyBlank doc.text = false := by simpa using hbl
  by_cases hfl : env.batch_size ≤
      (ls.batch_texts ++ (docChunks env doc).map (·.text)).length
  · cases hpb : processBatch env
        (ls.batch_texts ++ (docChunks env doc).map (·.text))
        (ls.batch_metas ++
          (docChunks env doc).map (chunkMetaOf (get_doc_id env.md5 doc) doc))
        { ls.rs with processed_ids := insert (get_doc_id env.md5 doc) ls.rs.processed_ids } with
    | ok rs2 =>
      rw [stepDoc_fresh_flush_ok hin hbl' hfl hpb] at h
      simp at h
    | error e' =>
      cases e; cases e'
      rw [stepDoc_fresh_flush_error hin hbl' hfl hpb] at h
      injection h with hA hB
      subst hA
      exact ⟨hbl', hin, rfl, Finset.mem_insert_self _ _, rfl, rfl, rfl, rfl,
        processBatch_error hpb⟩
  · rw [stepDoc_fresh_noflush hin hbl' (Nat.not_le.1 hfl)] at h
    simp at h

/-- A loop that ends in an error splits into a successfully processed
prefix followed by the failing step. -/
theorem runDocs_error_split {env : Env} :
    ∀ (docs : List Document) (ls ls' : LoopState) (e : Unit),
      runDocs env ls docs = (ls', .error e) →
      ∃ pre d rest ls1, docs = pre ++ d :: rest ∧
        runDocs env ls pre = (ls1, .ok ()) ∧
        stepDoc env ls1 d = (ls', .error e) := by
  intro docs
  induction docs with
  | nil => intro ls ls' e h; simp [runDocs] at h
  | cons d ds ih =>
    intro ls ls' e h
    cases hstep : stepDoc env ls d with
    | mk ls1 r =>
      cases r with
      | ok u =>
        cases u
        rw [show runDocs env ls (d :: ds) = runDocs env ls1 ds by
          simp [runDocs, hstep]] at h
        obtain ⟨pre, d', rest, ls2, hsplit, hpre, hfail⟩ := ih ls1 ls' e h
        refine ⟨d :: pre, d', rest, ls2, by simp [hsplit], ?_, hfail⟩
        simp [runDocs, hstep, hpre]
      | error e' =>
        rw [show runDocs env ls (d :: ds) = (ls1, .error e') by
          simp [runDocs, hstep]] at h
        injection h with hA hB
        subst hA
        cases e; cases e'
        exact ⟨[], d, ds, ls, rfl, rfl, hstep⟩

/-- Every queued chunk belongs to a document already marked processed:
marking happens at chunking time, before the chunk's batch is ever
embedded. -/
def batchMarked (ls : LoopState) : Prop :=
  ∀ m ∈ ls.batch_metas, m.doc_id ∈ ls.rs.processed_ids

/-- One step preserves `batchMarked`, whatever its outcome. -/
theorem stepDoc_batchMarked {env : Env} {ls ls' : LoopState}
    {doc : Document} {r : Except Unit Unit}
    (hinv : batchMarked ls) (h : stepDoc env ls doc = (ls', r)) :
    batchMarked ls' := by
  by_cases hin : get_doc_id env.md5 doc ∈ ls.rs.processed_ids
  · rw [stepDoc_skip hin] at h
    injection h with hA hB
    subst hA
    exact hinv
  by_cases hbl : pyBlank doc.text = true
  · rw [stepDoc_blank hin hbl] at h
    injection h with hA hB
    subst hA
    exact hinv
  have hbl' : pyBlank doc.text = false := by simpa using hbl
  have hnew : ∀ m ∈ ls.batch_metas ++
      (docChunks env doc).map (chunkMetaOf (get_doc_id env.md5 doc) doc),
      m.doc_id ∈ insert (get_doc_id env.md5 doc) ls.rs.processed_ids := by
    intro m hm
    rcases List.mem_append.1 hm with hold | hnew
    · exact Finset.mem_insert_of_mem (hinv m hold)
    · obtain ⟨c, -, rfl⟩ := List.mem_map.1 hnew
      exact Finset.mem_insert_self _ _
  by_cases hfl : env.batch_size ≤
      (ls.batch_texts ++ (docChunks env doc).map (·.text)).length
  · cases hpb : processBatch env
        (ls.batch_texts ++ (docChunks env doc).map (·.text))
        (ls.batch_metas ++
          (docChunks env doc).map (chunkMetaOf (get_doc_id env.md5 doc) doc))
        { ls.rs with processed_ids := insert (get_doc_id env.md5 doc) ls.rs.processed_ids } with
    | ok rs2 =>
      rw [stepDoc_fresh_flush_ok hin hbl' hfl hpb] at h
      injection h with hA hB
      subst hA
      intro m hm
      simp at hm
    | error e' =>
      rw [stepDoc_fresh_flush_error hin hbl' hfl hpb] at h
      injection h with hA hB
      subst hA
      exact hnew
  · rw [stepDoc_fresh_noflush hin hbl' (Nat.not_le.1 hfl)] at h
    injection h with hA hB
    subst hA
    exact hnew

/-- The whole loop preserves `batchMarked`. -/
theorem runDocs_batchMarked {env : Env} :
    ∀ (docs : List Document) (ls : LoopState),
      batchMarked ls → batchMarked (runDocs env ls docs).1 := by
  intro docs
  induction docs with
  | nil => intro ls h; exact h
  | cons d ds ih =>
    intro ls hinv
    cases hstep : stepDoc env ls d with
    | mk ls1 r =>
      have h1 := stepDoc_batchMarked hinv hstep
      cases r with
      | ok u =>
        cases u
        rw [show runDocs env ls (d :: ds) = runDocs env ls1 ds by
          simp [runDocs, hstep]]
        exact ih ls1 h1
      | error e =>
        rw [show runDocs env ls (d :: ds) = (ls1, .error e) by
          simp [runDocs, hstep]]
        exact h1

/-! ### Claim C5 — mark-before-embed; failures save no checkpoint -/

/-- Claim C5: if `process_documents` ends in an error, the error is a
batch-embedding failure (the failed batch is the final `batch_texts`);
every chunk of that never-embedded batch belongs to a document whose id
is ALREADY in the in-memory `ProcessedIdSet` (each document is marked
immediately after chunking, before its chunks are embedded or added to
the index); and the run performed no checkpoint save after the failure:
the checkpoint directory, the index and `total_chunks` are exactly what
they were at the end of the successfully processed prefix — on disk the
`ProcessedIdSet` remains whatever the last completed checkpoint wrote.
When the failure strikes mid-stream, the failing document itself was
fresh and non-blank and is marked in memory even though none of its
chunks ever reached the index. -/
theorem C5_marked_before_embed_and_no_checkpoint_after_failure
    (env : Env) (docs : List Document) (rs0 : RunState) (ls : LoopState)
    (e : Unit)
    (h : process_documents env docs rs0 = (ls, .error e)) :
    (∀ m ∈ ls.batch_metas, m.doc_id ∈ ls.rs.processed_ids) ∧
    embed_texts env.embedOne ls.batch_texts = .error e ∧
    ∃ pre rest ls1, docs = pre ++ rest ∧
      runDocs env (initLoop rs0) pre = (ls1, .ok ()) ∧
      ls.rs.disk = ls1.rs.disk ∧
      ls.rs.indexer = ls1.rs.indexer ∧
      ls.rs.total_chunks = ls1.rs.total_chunks ∧
      ((rest = [] ∧ ls = ls1) ∨
       ∃ d rest', rest = d :: rest' ∧
         stepDoc env ls1 d = (ls, .error e) ∧
         pyBlank d.text = false ∧
         get_doc_id env.md5 d ∉ ls1.rs.processed_ids ∧
         ls.rs.processed_ids =
           insert (get_doc_id env.md5 d) ls1.rs.processed_ids) := by
  unfold process_documents at h
  have hbm0 : batchMarked (initLoop rs0) := by
    intro m hm
    cases hm
  have hbm := @runDocs_batchMarked env docs (initLoop rs0) hbm0
  cases hres : runDocs env (initLoop rs0) docs with
  | mk lsr r =>
    rw [hres] at h hbm
    cases r with
    | error e' =>
      cases e; cases e'
      injection h with hA hB
      subst hA
      obtain ⟨pre, d, rest, ls1, hsplit, hpre, hfail⟩ :=
        runDocs_error_split docs (initLoop rs0) lsr () hres
      obtain ⟨hbl, hfresh, hproc, -, hdisk, hix, htc, hbt, hemb⟩ :=
        stepDoc_error_facts hfail
      exact ⟨hbm, hemb, pre, d :: rest, ls1, hsplit, hpre, hdisk, hix, htc,
        Or.inr ⟨d, rest, rfl, hfail, hbl, hfresh, hproc⟩⟩
    | ok u =>
      cases u
      cases hbe : lsr.batch_texts.isEmpty with
      | true =>
        simp only [hbe, if_true] at h
        simp at h
      | false =>
        simp only [hbe, Bool.false_eq_true, if_false] at h
        cases hpb : processBatch env lsr.batch_texts lsr.batch_metas lsr.rs with
        | ok rs2 => rw [hpb] at h; simp at h
        | error e' =>
          cases e; cases e'
          rw [hpb] at h
          injection h with hA hB
          subst hA
          exact ⟨hbm, processBatch_error hpb, docs, [], lsr,
            by simp, hres, rfl, rfl, rfl, Or.inl ⟨rfl, rfl⟩⟩

/-- An environment whose embedding service always fails (retries
exhausted), with batch size 1. -/
def envEmbFail : Env :=
  { wEnv with batch_size := 1, embedOne := fun _ => .error () }

/-- Witness for C5 at a concrete input: one ordinary document, whose
batch flush fails to embed. -/
theorem C5_witness :
    (process_documents envEmbFail [wDoc "a" "x"] rsInit).2 = .error () ∧
    ((∀ m ∈ (process_documents envEmbFail [wDoc "a" "x"] rsInit).1.batch_metas,
        m.doc_id ∈
          (process_documents envEmbFail [wDoc "a" "x"] rsInit).1.rs.processed_ids) ∧
      embed_texts envEmbFail.embedOne
        (process_documents envEmbFail [wDoc "a" "x"] rsInit).1.batch_texts
        = .error () ∧
      ∃ pre rest ls1, [wDoc "a" "x"] = pre ++ rest ∧
        runDocs envEmbFail (initLoop rsInit) pre = (ls1, .ok ()) ∧
        (process_documents envEmbFail [wDoc "a" "x"] rsInit).1.rs.disk
          = ls1.rs.disk ∧
        (process_documents envEmbFail [wDoc "a" "x"] rsInit).1.rs.indexer
          = ls1.rs.indexer ∧
        (process_documents envEmbFail [wDoc "a" "x"] rsInit).1.rs.total_chunks
          = ls1.rs.total_chunks ∧
        ((rest = [] ∧ (process_documents envEmbFail [wDoc "a" "x"] rsInit).1 = ls1) ∨
         ∃ d rest', rest = d :: rest' ∧
           stepDoc envEmbFail ls1 d =
             ((process_documents envEmbFail [wDoc "a" "x"] rsInit).1, .error ()) ∧
           pyBlank d.text = false ∧
           get_doc_id envEmbFail.md5 d ∉ ls1.rs.processed_ids ∧
           (process_documents envEmbFail [wDoc "a" "x"] rsInit).1.rs.processed_ids =
             insert (get_doc_id envEmbFail.md5 d) ls1.rs.processed_ids)) := by
  have h2 : (process_documents envEmbFail [wDoc "a" "x"] rsInit).2
      = .error () := by decide
  have h : process_documents envEmbFail [wDoc "a" "x"] rsInit =
      ((process_documents envEmbFail [wDoc "a" "x"] rsInit).1, .error ()) := by
    rw [← h2]
  exact ⟨h2, C5_marked_before_embed_and_no_checkpoint_after_failure
    envEmbFail [wDoc "a" "x"] rsInit
    (process_documents envEmbFail [wDoc "a" "x"] rsInit).1 () h⟩

/-- Count bookkeeping invariant, relative to the metadata count and
chunk counter at Builder construction: vectors and metadata stay in
lock-step, the two batch buffers stay in lock-step, and `total_chunks`
has grown by exactly the growth of the metadata list. -/
def lenInv (base_meta base_total : Nat) (ls : LoopState) : Prop :=
  ls.rs.indexer.vecs.length = ls.rs.indexer.metadatas.length ∧
  ls.batch_texts.length = ls.batch_metas.length ∧
  ls.rs.total_chunks + base_meta =
    base_total + ls.rs.indexer.metadatas.length

/-- A successful flush grows the metadata list, the vector store and
`total_chunks` by exactly the batch size. -/
theorem processBatch_ok_lengths {env : Env} {ts : List String}
    {ms : List ChunkMeta} {rs rs' : RunState}
    (hlen : ts.length = ms.length)
    (h : processBatch env ts ms rs = .ok rs') :
    rs'.indexer.metadatas.length = rs.indexer.metadatas.length + ts.length ∧
    rs'.indexer.vecs.length = rs.indexer.vecs.length + ts.length ∧
    rs'.total_chunks = rs.total_chunks + ts.length := by
  obtain ⟨vs, -, hvs, rfl⟩ := processBatch_ok h
  refine ⟨?_, ?_, rfl⟩
  · simp [FaissState.add, hlen]
  · simp [FaissState.add, hvs]

/-- One step preserves the count bookkeeping, whatever its outcome. -/
theorem stepDoc_lenInv {env : Env} {ls ls' : LoopState} {doc : Document}
    {r : Except Unit Unit} {bm bt : Nat}
    (hinv : lenInv bm bt ls) (h : stepDoc env ls doc = (ls', r)) :
    lenInv bm bt ls' := by
  obtain ⟨hvm, hbb, htc⟩ := hinv
  by_cases hin : get_doc_id env.md5 doc ∈ ls.rs.processed_ids
  · rw [stepDoc_skip hin] at h
    injection h with hA hB
    subst hA
    exact ⟨hvm, hbb, htc⟩
  by_cases hbl : pyBlank doc.text = true
  · rw [stepDoc_blank hin hbl] at h
    injection h with hA hB
    subst hA
    exact ⟨hvm, hbb, htc⟩
  have hbl' : pyBlank doc.text = false := by simpa using hbl
  have hbb' : (ls.batch_texts ++ (docChunks env doc).map (·.text)).length =
      (ls.batch_metas ++
        (docChunks env doc).map (chunkMetaOf (get_doc_id env.md5 doc) doc)).length := by
    simp [hbb]
  by_cases hfl : env.batch_size ≤
      (ls.batch_texts ++ (docChunks env doc).map (·.text)).length
  · cases hpb : processBatch env
        (ls.batch_texts ++ (docChunks env doc).map (·.text))
        (ls.batch_metas ++
          (docChunks env doc).map (chunkMetaOf (get_doc_id env.md5 doc) doc))
        { ls.rs with processed_ids := insert (get_doc_id env.md5 doc) ls.rs.processed_ids } with
    | error e =>
      rw [stepDoc_fresh_flush_error hin hbl' hfl hpb] at h
      injection h with hA hB
      subst hA
      exact ⟨hvm, hbb', htc⟩
    | ok rs2 =>
      obtain ⟨hm2, hv2, ht2⟩ := processBatch_ok_lengths hbb' hpb
      rw [stepDoc_fresh_flush_ok hin hbl' hfl hpb] at h
      injection h with hA hB
      subst hA
      have hfields : (if (ls.docs_processed + 1) % (env.batch_size * 10) = 0
          then saveCheckpoint (ls.docs_processed + 1) rs2
          else rs2).indexer = rs2.indexer ∧
          (if (ls.docs_processed + 1) % (env.batch_size * 10) = 0
          then saveCheckpoint (ls.docs_processed + 1) rs2
          else rs2).total_chunks = rs2.total_chunks := by
        split
        · exact ⟨rfl, rfl⟩
        · exact ⟨rfl, rfl⟩
      simp at hm2 hv2 ht2
      refine ⟨?_, rfl, ?_⟩
      · simp only [hfields.1]
        omega
      · simp only [hfields.1, hfields.2]
        omega
  · rw [stepDoc_fresh_noflush hin hbl' (Nat.not_le.1 hfl)] at h
    injection h with hA hB
    subst hA
    exact ⟨hvm, hbb', htc⟩

/-- The loop preserves the count bookkeeping. -/
theorem runDocs_lenInv {env : Env} {bm bt : Nat} :
    ∀ (docs : List Document) (ls : LoopState),
      lenInv bm bt ls → lenInv bm bt (runDocs env ls docs).1 := by
  intro docs
  induction docs with
  | nil => intro ls h; exact h
  | cons d ds ih =>
    intro ls hinv
    cases hstep : stepDoc env ls d with
    | mk ls1 r =>
      have h1 := stepDoc_lenInv hinv hstep
      cases r with
      | ok u =>
        cases u
        rw [show runDocs env ls (d :: ds) = runDocs env ls1 ds by
          simp [runDocs, hstep]]
        exact ih ls1 h1
      | error e =>
        rw [show runDocs env ls (d :: ds) = (ls1, .error e) by
          simp [runDocs, hstep]]
        exact h1

/-- The full `process_documents` call preserves the count bookkeeping:
the trailing flush behaves like any other flush and the final
checkpoint touches none of the counted state. -/
theorem process_documents_lenInv {env : Env} {docs : List Document}
    {rs0 : RunState} {ls : LoopState} {r : Except Unit Unit}
    (hvm : rs0.indexer.vecs.length = rs0.indexer.metadatas.length)
    (h : process_documents env docs rs0 = (ls, r)) :
    lenInv rs0.indexer.metadatas.length rs0.total_chunks ls := by
  have h0 : lenInv rs0.indexer.metadatas.length rs0.total_chunks
      (initLoop rs0) := ⟨hvm, rfl, rfl⟩
  have hloop := @runDocs_lenInv env _ _ docs (initLoop rs0) h0
  unfold process_documents at h
  cases hres : runDocs env (initLoop rs0) docs with
  | mk lsr rr =>
    rw [hres] at h hloop
    cases rr with
    | error e =>
      injection h with hA hB
      subst hA
      exact hloop
    | ok u =>
      cases u
      have hloop' : lenInv rs0.indexer.metadatas.length rs0.total_chunks lsr :=
        hloop
      obtain ⟨hv, hb, ht⟩ := hloop'
      cases hbe : lsr.batch_texts.isEmpty with
      | true =>
        simp only [hbe, if_true] at h
        injection h with hA hB
        subst hA
        exact ⟨hv, rfl, ht⟩
      | false =>
        simp only [hbe, Bool.false_eq_true, if_false] at h
        cases hpb : processBatch env lsr.batch_texts lsr.batch_metas lsr.rs with
        | error e =>
          rw [hpb] at h
          injection h with hA hB
          subst hA
          exact ⟨hv, hb, ht⟩
        | ok rs2 =>
          rw [hpb] at h
          injection h with hA hB
          subst hA
          obtain ⟨hm2, hv2, ht2⟩ := processBatch_ok_lengths hb hpb
          refine ⟨?_, rfl, ?_⟩
          · simp only [saveCheckpoint]
            omega
          · simp only [saveCheckpoint]
            omega

/-! ### Claim C10 — metadata/vector lock-step and `total_chunks` -/

/-- Claim C10: (i) a successful batch flush grows the indexer's
metadata list by exactly the number of texts in the flushed batch, and
the vector count by the same amount, while `total_chunks` grows by the
same number; (ii) a failed flush leaves the index and `total_chunks`
untouched — the counter is never incremented for a batch whose
embedding fails; (iii) across an entire run (successful or aborted),
the metadata count stays equal to the vector count, and the growth of
`total_chunks` over this run equals the number of chunk records added
to the index during this run. -/
theorem C10_lockstep_and_total_chunks_accounting :
    (∀ (env : Env) (ts : List String) (ms : List ChunkMeta)
        (rs rs' : RunState),
      ts.length = ms.length → processBatch env ts ms rs = .ok rs' →
      rs'.indexer.metadatas.length = rs.indexer.metadatas.length + ts.length ∧
      rs'.indexer.vecs.length = rs.indexer.vecs.length + ts.length ∧
      rs'.total_chunks = rs.total_chunks + ts.length) ∧
    (∀ (env : Env) (ls ls' : LoopState) (doc : Document) (e : Unit),
      stepDoc env ls doc = (ls', .error e) →
      ls'.rs.total_chunks = ls.rs.total_chunks ∧
      ls'.rs.indexer = ls.rs.indexer) ∧
    (∀ (env : Env) (docs : List Document) (rs0 : RunState)
        (ls : LoopState) (r : Except Unit Unit),
      rs0.indexer.vecs.length = rs0.indexer.metadatas.length →
      process_documents env docs rs0 = (ls, r) →
      ls.rs.indexer.vecs.length = ls.rs.indexer.metadatas.length ∧
      ls.rs.total_chunks + rs0.indexer.metadatas.length =
        rs0.total_chunks + ls.rs.indexer.metadatas.length) := by
  refine ⟨fun env ts ms rs rs' hl h => processBatch_ok_lengths hl h,
    fun env ls ls' doc e h => ?_, fun env docs rs0 ls r hv h => ?_⟩
  · obtain ⟨-, -, -, -, -, hix, htc, -, -⟩ := stepDoc_error_facts h
    exact ⟨htc, hix⟩
  · obtain ⟨h1, -, h3⟩ := process_documents_lenInv hv h
    exact ⟨h1, h3⟩

/-- Witness for C10 at a concrete input: a one-document run. -/
theorem C10_witness :
    (process_documents wEnv [wDoc "a" "x"] rsInit).1.rs.indexer.vecs.length =
      (process_documents wEnv [wDoc "a" "x"] rsInit).1.rs.indexer.metadatas.length ∧
    (process_documents wEnv [wDoc "a" "x"] rsInit).1.rs.total_chunks +
        rsInit.indexer.metadatas.length =
      rsInit.total_chunks +
        (process_documents wEnv [wDoc "a" "x"] rsInit).1.rs.indexer.metadatas.length :=
  C10_lockstep_and_total_chunks_accounting.2.2 wEnv [wDoc "a" "x"] rsInit
    (process_documents wEnv [wDoc "a" "x"] rsInit).1
    (process_documents wEnv [wDoc "a" "x"] rsInit).2 (by decide) rfl

/-- A sum of squares is non-negative. -/
theorem normSq_nonneg : ∀ x : Vec, 0 ≤ normSq x := by
  intro x
  induction x with
  | nil => simp [normSq, dot]
  | cons a l ih =>
    have : normSq (a :: l) = a * a + normSq l := by
      simp [normSq, dot]
    rw [this]
    have ha : 0 ≤ a * a := mul_self_nonneg a
    linarith

/-- `a / sqrt A ≥ b / sqrt B` over the reals, for positive `A`, `B` and
`a ≥ 0`, without square roots. -/
theorem div_sqrt_le_nonneg {a b A B : ℝ} (hA : 0 < A) (hB : 0 < B)
    (ha : 0 ≤ a) :
    b / Real.sqrt B ≤ a / Real.sqrt A ↔ b < 0 ∨ b ^ 2 * A ≤ a ^ 2 * B := by
  rw [div_le_div_iff₀ (Real.sqrt_pos.2 hB) (Real.sqrt_pos.2 hA)]
  have hsqA : Real.sqrt A * Real.sqrt A = A := Real.mul_self_sqrt hA.le
  have hsqB : Real.sqrt B * Real.sqrt B = B := Real.mul_self_sqrt hB.le
  constructor
  · intro h
    by_cases hb : 0 ≤ b
    · right
      have h2 := mul_self_le_mul_self
        (mul_nonneg hb (Real.sqrt_nonneg A)) h
      calc b ^ 2 * A = b * Real.sqrt A * (b * Real.sqrt A) := by
            rw [mul_mul_mul_comm, hsqA]; ring
        _ ≤ a * Real.sqrt B * (a * Real.sqrt B) := h2
        _ = a ^ 2 * B := by rw [mul_mul_mul_comm, hsqB]; ring
    · exact Or.inl (lt_of_not_ge hb)
  · rintro (hb | hsq)
    · have h1 : b * Real.sqrt A < 0 :=
        mul_neg_of_neg_of_pos hb (Real.sqrt_pos.2 hA)
      have h2 : 0 ≤ a * Real.sqrt B :=
        mul_nonneg ha (Real.sqrt_nonneg B)
      linarith
    · by_cases hb : 0 ≤ b
      · refine (mul_self_le_mul_self_iff
          (mul_nonneg hb (Real.sqrt_nonneg A))
          (mul_nonneg ha (Real.sqrt_nonneg B))).2 ?_
        calc b * Real.sqrt A * (b * Real.sqrt A) = b ^ 2 * A := by
              rw [mul_mul_mul_comm, hsqA]; ring
          _ ≤ a ^ 2 * B := hsq
          _ = a * Real.sqrt B * (a * Real.sqrt B) := by
              rw [mul_mul_mul_comm, hsqB]; ring
      · have h1 : b * Real.sqrt A < 0 :=
          mul_neg_of_neg_of_pos (lt_of_not_ge hb) (Real.sqrt_pos.2 hA)
        have h2 : 0 ≤ a * Real.sqrt B :=
          mul_nonneg ha (Real.sqrt_nonneg B)
        linarith

/-- The companion of `div_sqrt_le_nonneg` for `a < 0`. -/
theorem div_sqrt_le_neg {a b A B : ℝ} (hA : 0 < A) (hB : 0 < B)
    (ha : a < 0) :
    b / Real.sqrt B ≤ a / Real.sqrt A ↔ b < 0 ∧ a ^ 2 * B ≤ b ^ 2 * A := by
  rw [div_le_div_iff₀ (Real.sqrt_pos.2 hB) (Real.sqrt_pos.2 hA)]
  have hsqA : Real.sqrt A * Real.sqrt A = A := Real.mul_self_sqrt hA.le
  have hsqB : Real.sqrt B * Real.sqrt B = B := Real.mul_self_sqrt hB.le
  constructor
  · intro h
    have haB : a * Real.sqrt B < 0 :=
      mul_neg_of_neg_of_pos ha (Real.sqrt_pos.2 hB)
    have hbA : b * Real.sqrt A < 0 := lt_of_le_of_lt h haB
    have hb : b < 0 := by
      by_contra hb
      exact absurd hbA (not_lt.2 (mul_nonneg (le_of_not_lt hb)
        (Real.sqrt_nonneg A)))
    refine ⟨hb, ?_⟩
    have hneg : -(a * Real.sqrt B) ≤ -(b * Real.sqrt A) := neg_le_neg h
    have h2 := mul_self_le_mul_self
      (neg_nonneg.2 haB.le) hneg
    calc a ^ 2 * B = -(a * Real.sqrt B) * -(a * Real.sqrt B) := by
          rw [neg_mul_neg, mul_mul_mul_comm, hsqB]; ring
      _ ≤ -(b * Real.sqrt A) * -(b * Real.sqrt A) := h2
      _ = b ^ 2 * A := by rw [neg_mul_neg, mul_mul_mul_comm, hsqA]; ring
  · rintro ⟨hb, hsq⟩
    have key : -(a * Real.sqrt B) ≤ -(b * Real.sqrt A) := by
      have haB : a * Real.sqrt B < 0 :=
        mul_neg_of_neg_of_pos ha (Real.sqrt_pos.2 hB)
      have hbA : b * Real.sqrt A < 0 :=
        mul_neg_of_neg_of_pos hb (Real.sqrt_pos.2 hA)
      refine (mul_self_le_mul_self_iff
        (neg_nonneg.2 haB.le) (neg_nonneg.2 hbA.le)).2 ?_
      calc -(a * Real.sqrt B) * -(a * Real.sqrt B) = a ^ 2 * B := by
            rw [neg_mul_neg, mul_mul_mul_comm, hsqB]; ring
        _ ≤ b ^ 2 * A := hsq
        _ = -(b * Real.sqrt A) * -(b * Real.sqrt A) := by
            rw [neg_mul_neg, mul_mul_mul_comm, hsqA]; ring
    linarith

/-- The decidable comparator `divGe` agrees with the real-valued
comparison of the normalised scores (`x / 0 = 0` matching the zero
vector staying zero under `faiss.normalize_L2`). -/
theorem divGe_iff {a A b B : ℚ} (hA : 0 ≤ A) (hB : 0 ≤ B) :
    divGe a A b B = true ↔
      (b : ℝ) / Real.sqrt (B : ℝ) ≤ (a : ℝ) / Real.sqrt (A : ℝ) := by
  unfold divGe
  by_cases hA0 : A = 0
  · subst hA0
    rw [if_pos rfl]
    by_cases hB0 : B = 0
    · subst hB0
      rw [if_pos rfl]
      simp [Real.sqrt_zero]
    · have hBpos : (0:ℚ) < B := lt_of_le_of_ne hB (Ne.symm hB0)
      have hsB : 0 < Real.sqrt (B:ℝ) :=
        Real.sqrt_pos.2 (by exact_mod_cast hBpos)
      rw [if_neg hB0]
      rw [Rat.cast_zero, Real.sqrt_zero, div_zero]
      rw [div_le_iff₀ hsB, zero_mul]
      simp only [decide_eq_true_eq]
      exact ⟨fun h => by exact_mod_cast h, fun h => by exact_mod_cast h⟩
  · rw [if_neg hA0]
    have hApos : (0:ℚ) < A := lt_of_le_of_ne hA (Ne.symm hA0)
    have hAr : (0:ℝ) < (A:ℝ) := by exact_mod_cast hApos
    have hsA : 0 < Real.sqrt (A:ℝ) := Real.sqrt_pos.2 hAr
    by_cases hB0 : B = 0
    · subst hB0
      rw [if_pos rfl]
      rw [Rat.cast_zero, Real.sqrt_zero, div_zero]
      rw [le_div_iff₀ hsA, zero_mul]
      simp only [decide_eq_true_eq]
      exact ⟨fun h => by exact_mod_cast h, fun h => by exact_mod_cast h⟩
    · rw [if_neg hB0]
      have hBpos : (0:ℚ) < B := lt_of_le_of_ne hB (Ne.symm hB0)
      have hBr : (0:ℝ) < (B:ℝ) := by exact_mod_cast hBpos
      by_cases ha : 0 ≤ a
      · rw [if_pos ha]
        rw [div_sqrt_le_nonneg hAr hBr (by exact_mod_cast ha)]
        simp only [decide_eq_true_eq]
        constructor
        · rintro (h | h)
          · exact Or.inl (by exact_mod_cast h)
          · exact Or.inr (by exact_mod_cast h)
        · rintro (h | h)
          · exact Or.inl (by exact_mod_cast h)
          · exact Or.inr (by exact_mod_cast h)
      · rw [if_neg ha]
        have har : (a:ℝ) < 0 := by exact_mod_cast lt_of_not_ge ha
        rw [div_sqrt_le_neg hAr hBr har]
        simp only [decide_eq_true_eq]
        constructor
        · rintro ⟨h1, h2⟩
          exact ⟨by exact_mod_cast h1, by exact_mod_cast h2⟩
        · rintro ⟨h1, h2⟩
          exact ⟨by exact_mod_cast h1, by exact_mod_cast h2⟩

/-- The score faiss stores for `x`: inner product with the probe after
normalising `x` only (the probe's normalisation is a common positive
factor across all stored vectors and does not affect the ordering). -/
noncomputable def rawScore (x v : Vec) : ℝ :=
  ((dot x v : ℚ) : ℝ) / Real.sqrt ((normSq x : ℚ) : ℝ)

/-- `cosGe` decides the real comparison of raw scores. -/
theorem cosGe_iff {v x y : Vec} :
    cosGe v x y = true ↔ rawScore y v ≤ rawScore x v :=
  divGe_iff (normSq_nonneg x) (normSq_nonneg y)

/-- Factoring the probe's norm out of the cosine similarity. -/
theorem realScore_eq_rawScore_div (x v : Vec) :
    realScore x v = rawScore x v / Real.sqrt ((normSq v : ℚ) : ℝ) := by
  rw [realScore, rawScore, div_div]

/-- For a probe with positive norm, comparing cosine similarities is
comparing raw scores. -/
theorem realScore_le_iff {x y v : Vec} (hv : 0 < normSq v) :
    realScore y v ≤ realScore x v ↔ rawScore y v ≤ rawScore x v := by
  rw [realScore_eq_rawScore_div, realScore_eq_rawScore_div]
  exact div_le_div_iff_of_pos_right
    (Real.sqrt_pos.2 (by exact_mod_cast hv))

/-- Strict version of `realScore_le_iff`. -/
theorem realScore_lt_iff {x y v : Vec} (hv : 0 < normSq v) :
    realScore y v < realScore x v ↔ rawScore y v < rawScore x v := by
  rw [realScore_eq_rawScore_div, realScore_eq_rawScore_div]
  exact div_lt_div_iff_of_pos_right
    (Real.sqrt_pos.2 (by exact_mod_cast hv))

/-- Every ranked hit is a stored vector at its own id. -/
theorem sortedHits_mem {M : Type} (st : FaissState M) (v : Vec)
    {p : Nat × Vec} (h : p ∈ st.sortedHits v) :
    st.vecs[p.1]? = some p.2 := by
  have h2 : p ∈ st.vecs.enum := (List.mem_insertionSort _).1 h
  exact List.mem_enum_iff_getElem?.1 h2

/-- The ranked hits are sorted by non-increasing raw score. -/
theorem sortedHits_sorted {M : Type} (st : FaissState M) (v : Vec) :
    List.Pairwise (fun p q : Nat × Vec => rawScore q.2 v ≤ rawScore p.2 v)
      (st.sortedHits v) := by
  haveI instTr : IsTrans (Nat × Vec)
      (fun p q => cosGe v p.2 q.2 = true) := by
    refine ⟨fun p q s hpq hqs => ?_⟩
    rw [cosGe_iff] at hpq hqs ⊢
    exact le_trans hqs hpq
  haveI instTot : IsTotal (Nat × Vec)
      (fun p q => cosGe v p.2 q.2 = true) := by
    refine ⟨fun p q => ?_⟩
    rw [cosGe_iff, cosGe_iff]
    exact le_total _ _
  have hs := List.sorted_insertionSort
    (fun p q : Nat × Vec => cosGe v p.2 q.2 = true) st.vecs.enum
  exact hs.imp (fun h => cosGe_iff.1 h)

/-- The ranked hits carry pairwise distinct ids. -/
theorem sortedHits_nodup_fst {M : Type} (st : FaissState M) (v : Vec) :
    List.Pairwise (fun p q : Nat × Vec => p.1 ≠ q.1) (st.sortedHits v) := by
  have hperm : List.Perm (st.sortedHits v) st.vecs.enum :=
    List.perm_insertionSort _ _
  have h1 : (st.vecs.enum.map Prod.fst).Nodup := List.nodup_enum_map_fst _
  have h2 : ((st.sortedHits v).map Prod.fst).Nodup :=
    ((hperm.map Prod.fst).nodup_iff).2 h1
  rw [List.Nodup] at h2
  exact List.pairwise_map.1 h2

/-- `filterMap` only looks at its argument function on list members. -/
theorem filterMap_congr_mem {α β : Type _} {f g : α → Option β} :
    ∀ {l : List α}, (∀ a ∈ l, f a = g a) →
      l.filterMap f = l.filterMap g := by
  intro l
  induction l with
  | nil => intro _; rfl
  | cons a l ih =>
    intro h
    rw [List.filterMap_cons, List.filterMap_cons, h a (by simp),
      ih (fun a' ha' => h a' (by simp [ha']))]

/-- With `k` within the stored count and the metadata list in lock-step
with the vectors, `query` returns, for each of the top-`k` hits in rank
order, the hit's id paired with the metadata record at that id. -/
theorem query_eq_filterMap {M : Type} (st : FaissState M) (v : Vec)
    (k : Nat) (hmeta : st.metadatas.length = st.vecs.length)
    (hk : k ≤ st.vecs.length) :
    st.query v k = ((st.sortedHits v).take k).filterMap
      (fun p => (st.metadatas[p.1]?).map (fun m => ((p.1 : Int), m))) := by
  unfold FaissState.query FaissState.search
  rw [Nat.sub_eq_zero_of_le hk]
  rw [List.replicate_zero, List.append_nil, List.filterMap_map]
  apply filterMap_congr_mem
  intro p hp
  have hmem : p ∈ st.sortedHits v := List.mem_of_mem_take hp
  have hsome := sortedHits_mem st v hmem
  have hlt : p.1 < st.vecs.length := (List.getElem?_eq_some_iff.1 hsome).1
  have hgd : ((p.1 : Nat) : Int) < (st.metadatas.length : Int) := by
    rw [hmeta]
    exact_mod_cast hlt
  simp only [Function.comp]
  rw [if_pos hgd]
  unfold pyGet
  rw [if_pos (by exact_mod_cast Nat.zero_le p.1 : (0:Int) ≤ (p.1 : Int))]
  rw [Int.toNat_natCast, List.get?_eq_getElem?]

/-- `scoreAt` at a valid id is the cosine score of the stored vector
with that id. -/
theorem scoreAt_natCast {M : Type} (st : FaissState M) (v : Vec)
    {i : Nat} {x : Vec} (h : st.vecs[i]? = some x) :
    scoreAt st v (i : Int) = realScore x v := by
  unfold scoreAt
  rw [Int.toNat_natCast, List.get?_eq_getElem?, h]

/-- A `filterMap` that never drops anything preserves length. -/
theorem length_filterMap_all_some {α β : Type _} {f : α → Option β} :
    ∀ {l : List α}, (∀ a ∈ l, (f a).isSome) →
      (l.filterMap f).length = l.length := by
  intro l
  induction l with
  | nil => intro _; rfl
  | cons a l ih =>
    intro h
    cases hf : f a with
    | none =>
      have := h a (by simp)
      rw [hf] at this
      cases this
    | some b =>
      rw [List.filterMap_cons, hf, List.length_cons,
        ih (fun a' ha' => h a' (by simp [ha']))]
      rfl

/-- Claim C7 as amended: for a probe with positive norm, `k` within the
stored count, the metadata list in lock-step with the vectors, and
pairwise distinct cosine similarities of the stored vectors against the
probe, `query(probe, k)` returns `k` results ordered by strictly
descending similarity score; each result's score is the cosine
similarity between the probe and that result's own stored vector
(inner product of the L2-normalised vectors), and each result is paired
with its own metadata record. -/
theorem C7_amended_query_strictly_descending {M : Type}
    (st : FaissState M) (v : Vec) (k : Nat)
    (hmeta : st.metadatas.length = st.vecs.length)
    (hk : k ≤ st.vecs.length)
    (hv : 0 < normSq v)
    (hdist : ∀ (i j : Nat) (x y : Vec), i ≠ j →
      st.vecs[i]? = some x → st.vecs[j]? = some y →
      realScore x v ≠ realScore y v) :
    List.Pairwise (fun r1 r2 => scoreAt st v r2.1 < scoreAt st v r1.1)
      (st.query v k) ∧
    (∀ rr ∈ st.query v k, ∃ i : Nat, rr.1 = (i : Int) ∧
      st.metadatas[i]? = some rr.2 ∧
      ∃ x, st.vecs[i]? = some x ∧ scoreAt st v rr.1 = realScore x v) ∧
    (st.query v k).length = k := by
  have hmemL : ∀ p ∈ (st.sortedHits v).take k, st.vecs[p.1]? = some p.2 :=
    fun p hp => sortedHits_mem st v (List.mem_of_mem_take hp)
  have hmetaSome : ∀ p ∈ (st.sortedHits v).take k,
      (st.metadatas[p.1]?).isSome := by
    intro p hp
    have hlt : p.1 < st.vecs.length :=
      (List.getElem?_eq_some_iff.1 (hmemL p hp)).1
    have hlt2 : p.1 < st.metadatas.length := by rw [hmeta]; exact hlt
    rw [List.getElem?_eq_getElem hlt2]
    rfl
  have hq := query_eq_filterMap st v k hmeta hk
  refine ⟨?_, ?_, ?_⟩
  · rw [hq]
    have h1 := (sortedHits_sorted st v).and (sortedHits_nodup_fst st v)
    have h2 := h1.sublist (List.take_sublist k (st.sortedHits v))
    have h3 := List.Pairwise.and_mem.1 h2
    refine List.Pairwise.filterMap _ ?_ h3
    rintro p q ⟨hpL, hqL, hraw, hne⟩ b hb b' hb'
    obtain ⟨m, hm, rfl⟩ := Option.map_eq_some'.1 hb
    obtain ⟨m', hm', rfl⟩ := Option.map_eq_some'.1 hb'
    have hx := hmemL p hpL
    have hy := hmemL q hqL
    rw [scoreAt_natCast st v hx, scoreAt_natCast st v hy]
    exact lt_of_le_of_ne ((realScore_le_iff hv).2 hraw)
      (hdist q.1 p.1 q.2 p.2 (Ne.symm hne) hy hx)
  · rw [hq]
    intro rr hr
    obtain ⟨p, hpL, hfp⟩ := List.mem_filterMap.1 hr
    obtain ⟨m, hm, rfl⟩ := Option.map_eq_some'.1 hfp
    exact ⟨p.1, rfl, hm, p.2, hmemL p hpL,
      scoreAt_natCast st v (hmemL p hpL)⟩
  · have hlen : (st.sortedHits v).length = st.vecs.length := by
      rw [FaissState.sortedHits, List.length_insertionSort, List.enum_length]
    rw [hq, length_filterMap_all_some
        (fun p hp => by rw [Option.isSome_map']; exact hmetaSome p hp),
      List.length_take, hlen]
    exact min_eq_left hk

/-- An index holding the same vector twice. -/
def stDup : FaissState String :=
  { dim := 2, vecs := [[1, 0], [1, 0]], metadatas := ["a", "b"] }

/-- An index holding three unit vectors with three distinct cosine
similarities (1, 3/5, 0) against the probe `[1, 0]`. -/
def stTri : FaissState String :=
  { dim := 2, vecs := [[0, 1], [3/5, 4/5], [1, 0]],
    metadatas := ["a", "b", "c"] }

/-- The cosine score of a stored `[1,0]` against the probe `[1,0]`. -/
theorem realScore_e2 : realScore [1, 0] [1, 0] = 1 := by
  unfold realScore
  rw [show dot [1, 0] [1, 0] = (1:ℚ) from by norm_num [dot],
    show normSq [1, 0] = (1:ℚ) from by norm_num [normSq, dot]]
  push_cast
  rw [Real.sqrt_one]
  norm_num

/-- The cosine score of a stored `[0,1]` against the probe `[1,0]`. -/
theorem realScore_e0 : realScore [0, 1] [1, 0] = 0 := by
  unfold realScore
  rw [show dot [0, 1] [1, 0] = (0:ℚ) from by norm_num [dot]]
  push_cast
  rw [zero_div]

/-- The cosine score of a stored `[3/5,4/5]` against the probe
`[1,0]`. -/
theorem realScore_e1 : realScore [3/5, 4/5] [1, 0] = 3/5 := by
  unfold realScore
  rw [show dot [3/5, 4/5] [1, 0] = (3/5:ℚ) from by norm_num [dot],
    show normSq [3/5, 4/5] = (1:ℚ) from by norm_num [normSq, dot],
    show normSq [1, 0] = (1:ℚ) from by norm_num [normSq, dot]]
  push_cast
  rw [Real.sqrt_one]
  norm_num

/-- Counterexample to claim C7 as stated: with the same vector stored
twice, both results of `query([1,0], 2)` carry the same score (cosine
`1`), so the result sequence is NOT ordered by strictly descending
score. -/
theorem C7_counterexample :
    ¬ List.Pairwise
      (fun r1 r2 => scoreAt stDup [1, 0] r2.1 < scoreAt stDup [1, 0] r1.1)
      (stDup.query [1, 0] 2) := by
  intro h
  have hq : stDup.query [1, 0] 2 = [((0 : Int), "a"), ((1 : Int), "b")] := by
    norm_num [FaissState.query, FaissState.search, FaissState.sortedHits,
      List.insertionSort, List.orderedInsert, cosGe, divGe, dot, normSq,
      stDup, pyGet, List.enum, List.enumFrom, List.filterMap]
  rw [hq] at h
  have h1 := (List.pairwise_cons.1 h).1 ((1 : Int), "b") (by simp)
  have e0 : scoreAt stDup [1, 0] (0 : Int) = realScore [1, 0] [1, 0] := rfl
  have e1 : scoreAt stDup [1, 0] (1 : Int) = realScore [1, 0] [1, 0] := rfl
  rw [e0, e1, realScore_e2] at h1
  exact absurd h1 (lt_irrefl _)

/-- Witness for the amended C7 at a concrete input: three stored unit
vectors with distinct cosine similarities (0, 3/5, 1) against the probe
`[1, 0]`, queried with `k = 3`. -/
theorem C7_witness :
    List.Pairwise
      (fun r1 r2 => scoreAt stTri [1, 0] r2.1 < scoreAt stTri [1, 0] r1.1)
      (stTri.query [1, 0] 3) ∧
    (stTri.query [1, 0] 3).length = 3 := by
  have hdist : ∀ (i j : Nat) (x y : Vec), i ≠ j →
      stTri.vecs[i]? = some x → stTri.vecs[j]? = some y →
      realScore x [1, 0] ≠ realScore y [1, 0] := by
    intro i j x y hij hx hy
    have hi : i < 3 := (List.getElem?_eq_some_iff.1 hx).1
    have hj : j < 3 := (List.getElem?_eq_some_iff.1 hy).1
    interval_cases i <;> interval_cases j <;>
      first
        | exact absurd rfl hij
        | (simp only [stTri, List.getElem?_cons_zero, List.getElem?_cons_succ,
             Option.some.injEq] at hx hy
           subst hx
           subst hy
           simp only [realScore_e0, realScore_e1, realScore_e2]
           norm_num)
  have h := C7_amended_query_strictly_descending stTri [1, 0] 3
    rfl (le_refl 3) (by norm_num [normSq, dot]) hdist
  exact ⟨h.1, h.2.2⟩
